import Mathlib

/-!
Verification of the browser-side federated-learning core of this repository:
the worker training orchestrator (`src/frontend/workers/fl.worker.ts`), the
WebGPU engine's weight-delta and (de)serialization routines
(`src/frontend/workers/webgpu-engine.ts`), and the binary wire codec of the
weight-update API (`uploadWeightsBinary` / `fetchGlobalWeights`).

Modelling conventions, shared by every definition below:

* A byte is a `Nat` (values below 256 where the source guarantees it).
* A 32-bit float is represented by its 32-bit pattern, a `Nat` below `2 ^ 32`;
  a `Float32Array` is a `List Nat` of such words.  Copying floats between
  buffers (`TypedArray.set`, `slice`) is bit-exact in JavaScript, so byte-level
  round trips capture the source's behaviour exactly.
* JavaScript exceptions that the source catches (producing `null` / a failure
  response) and truncated-input `RangeError`s of `DataView` / typed-array
  constructors are modelled by `Option`: `none` is the caught-error outcome.
* `Math.random`-driven numerics (the simulated gradient updates and the random
  adapter initialisation) are oracles: an update function and an initial
  vector supplied as parameters.
-/

set_option maxRecDepth 100000

/-! # Bytes and 32-bit words -/

/-- Little-endian bytes of one 32-bit word, as written by
`DataView.setUint32(_, w, true)` and by storing a float's bit pattern into an
aligned `Float32Array` slot. -/
def u32Bytes (w : Nat) : List Nat :=
  [w % 256, w / 256 % 256, w / 65536 % 256, w / 16777216 % 256]

/-- One little-endian 32-bit word from four bytes. -/
def bytesToWord (b0 b1 b2 b3 : Nat) : Nat :=
  b0 + 256 * b1 + 65536 * b2 + 16777216 * b3

/-- Serialize a word list to bytes — the byte image of a `Float32Array`. -/
def wordsToBytes : List Nat → List Nat
  | [] => []
  | w :: ws => u32Bytes w ++ wordsToBytes ws

/-- Group a byte list into 32-bit words, dropping a ragged tail (the source
only reads through a view whose byte length is a checked multiple of 4). -/
def groupWords : List Nat → List Nat
  | b0 :: b1 :: b2 :: b3 :: rest => bytesToWord b0 b1 b2 b3 :: groupWords rest
  | _ => []

/-- `new Float32Array(arrayBuffer)`: succeeds only when the byte length is a
multiple of 4, else throws `RangeError` (here: `none`). -/
def bytesToWords (bs : List Nat) : Option (List Nat) :=
  if bs.length % 4 = 0 then some (groupWords bs) else none

/-- `DataView.getUint32(0, true)`: `RangeError` when fewer than 4 bytes. -/
def readU32le : List Nat → Option Nat
  | b0 :: b1 :: b2 :: b3 :: _ => some (bytesToWord b0 b1 b2 b3)
  | _ => none

/-- All entries are genuine 32-bit patterns. -/
def validWords (ws : List Nat) : Prop := ∀ w ∈ ws, w < 4294967296

instance (ws : List Nat) : Decidable (validWords ws) := by
  unfold validWords; infer_instance

theorem bytesToWord_u32Bytes (w : Nat) (h : w < 4294967296) :
    bytesToWord (w % 256) (w / 256 % 256) (w / 65536 % 256) (w / 16777216 % 256) = w := by
  unfold bytesToWord
  omega

theorem u32Bytes_length (w : Nat) : (u32Bytes w).length = 4 := rfl

theorem wordsToBytes_length (ws : List Nat) :
    (wordsToBytes ws).length = 4 * ws.length := by
  induction ws with
  | nil => rfl
  | cons w ws ih => simp [wordsToBytes, u32Bytes, ih]; omega

theorem groupWords_wordsToBytes (ws : List Nat) (h : validWords ws) :
    groupWords (wordsToBytes ws) = ws := by
  induction ws with
  | nil => rfl
  | cons w ws ih =>
      have hw : w < 4294967296 := h w (by simp)
      have hrest : validWords ws := fun x hx => h x (by simp [hx])
      simp [wordsToBytes, u32Bytes, groupWords, bytesToWord_u32Bytes w hw, ih hrest]

theorem bytesToWords_wordsToBytes (ws : List Nat) (h : validWords ws) :
    bytesToWords (wordsToBytes ws) = some ws := by
  simp [bytesToWords, wordsToBytes_length, Nat.mul_mod_right, groupWords_wordsToBytes ws h]

/-! # Decimal digits (JSON number rendering of the integers the model carries) -/

/-- Fuel-driven decimal rendering; fuel `n + 1` always suffices. -/
def natDigitsAux : Nat → Nat → List Nat
  | 0, _ => []
  | fuel + 1, n => if n < 10 then [48 + n] else natDigitsAux fuel (n / 10) ++ [48 + n % 10]

/-- ASCII decimal digits of `n`, as `JSON.stringify` renders a nonnegative
integer. -/
def natDigits (n : Nat) : List Nat := natDigitsAux (n + 1) n

theorem natDigitsAux_congr : ∀ f1 f2 n, n < f1 → n < f2 →
    natDigitsAux f1 n = natDigitsAux f2 n := by
  intro f1
  induction f1 with
  | zero => omega
  | succ k ih =>
      intro f2 n h1 h2
      match f2, h2 with
      | m + 1, _ =>
        simp only [natDigitsAux]
        by_cases hn : n < 10
        · simp [hn]
        · have hdiv : n / 10 < n := Nat.div_lt_self (by omega) (by omega)
          simp only [hn, if_false]
          rw [ih m (n / 10) (by omega) (by omega)]

theorem natDigits_def (n : Nat) :
    natDigits n = if n < 10 then [48 + n] else natDigits (n / 10) ++ [48 + n % 10] := by
  unfold natDigits
  conv_lhs => rw [natDigitsAux]
  by_cases hn : n < 10
  · simp [hn]
  · have hdiv : n / 10 < n := Nat.div_lt_self (by omega) (by omega)
    simp only [hn, if_false]
    rw [natDigitsAux_congr n (n / 10 + 1) (n / 10) (by omega) (by omega)]

/-- ASCII decimal digit test, as used to delimit a JSON number. -/
def isDigit (b : Nat) : Bool := 48 ≤ b && b ≤ 57

theorem natDigits_all_digits (n : Nat) : ∀ b ∈ natDigits n, isDigit b = true := by
  induction n using Nat.strong_induction_on with
  | _ n ih =>
      rw [natDigits_def]
      by_cases hn : n < 10
      · simp [hn, isDigit]; omega
      · have hdiv : n / 10 < n := Nat.div_lt_self (by omega) (by omega)
        simp only [hn, if_false]
        intro b hb
        rcases List.mem_append.mp hb with h | h
        · exact ih (n / 10) hdiv b h
        · simp at h
          simp [h, isDigit]
          omega

theorem natDigits_ne_nil (n : Nat) : natDigits n ≠ [] := by
  rw [natDigits_def]
  by_cases hn : n < 10 <;> simp [hn]

/-- Parse a maximal run of decimal digits; `none` when there is none.  This is
the integer fragment of the JSON number grammar (the source only serializes
nonnegative integers here). -/
def parseNat (s : List Nat) : Option (Nat × List Nat) :=
  let ds := s.takeWhile isDigit
  if ds.isEmpty then none
  else some (ds.foldl (fun a d => 10 * a + (d - 48)) 0, s.dropWhile isDigit)

theorem takeWhile_all_append {p : Nat → Bool} (xs rest : List Nat)
    (hxs : ∀ b ∈ xs, p b = true) (hrest : ∀ c, rest.head? = some c → p c = false) :
    (xs ++ rest).takeWhile p = xs ∧ (xs ++ rest).dropWhile p = rest := by
  induction xs with
  | nil =>
      cases rest with
      | nil => simp
      | cons c r =>
          have := hrest c rfl
          simp [List.takeWhile, List.dropWhile, this]
  | cons x xs ih =>
      have hx : p x = true := hxs x (by simp)
      have ih2 := ih (fun b hb => hxs b (by simp [hb]))
      simp [List.takeWhile, List.dropWhile, hx, ih2.1, ih2.2]

theorem foldl_digits (n : Nat) : ∀ a : Nat,
    (natDigits n).foldl (fun a d => 10 * a + (d - 48)) a =
      a * 10 ^ (natDigits n).length + n := by
  induction n using Nat.strong_induction_on with
  | _ n ih =>
      intro a
      rw [natDigits_def]
      by_cases hn : n < 10
      · simp [hn]; omega
      · have hdiv : n / 10 < n := Nat.div_lt_self (by omega) (by omega)
        simp only [hn, if_false]
        rw [List.foldl_append, ih (n / 10) hdiv a]
        simp [List.length_append, pow_succ]
        ring_nf
        omega

theorem parseNat_digits (n : Nat) (c : Nat) (r : List Nat) (hc : isDigit c = false) :
    parseNat (natDigits n ++ (c :: r)) = some (n, c :: r) := by
  have h := takeWhile_all_append (p := isDigit) (natDigits n) (c :: r)
    (natDigits_all_digits n) (by intro x hx; simp at hx; simp [← hx, hc])
  simp only [parseNat, h.1, h.2]
  have hne := natDigits_ne_nil n
  simp [List.isEmpty_iff, hne, foldl_digits n 0]

/-! # JSON string escaping (`JSON.stringify`) and scanning (`JSON.parse`)

Strings are lists of character codes.  `JSON.stringify` escapes the double
quote, the backslash, and the control characters below 32 (with the standard
short escapes for backspace, tab, newline, form feed, carriage return and
lowercase `\u00xx` otherwise); every other character passes through. -/

/-- Value of one ASCII hex digit. -/
def hexVal (b : Nat) : Option Nat :=
  if 48 ≤ b ∧ b ≤ 57 then some (b - 48)
  else if 65 ≤ b ∧ b ≤ 70 then some (b - 55)
  else if 97 ≤ b ∧ b ≤ 102 then some (b - 87)
  else none

/-- Lowercase hex digit for a value below 16. -/
def hexDigit (n : Nat) : Nat := if n < 10 then 48 + n else 87 + n

theorem hexVal_hexDigit : ∀ n, n < 16 → hexVal (hexDigit n) = some n := by decide

/-- Escape of one character code, per `JSON.stringify`. -/
def jsonEscapeByte (b : Nat) : List Nat :=
  if b = 34 then [92, 34]
  else if b = 92 then [92, 92]
  else if b = 8 then [92, 98]
  else if b = 9 then [92, 116]
  else if b = 10 then [92, 110]
  else if b = 12 then [92, 102]
  else if b = 13 then [92, 114]
  else if b < 32 then [92, 117, 48, 48, hexDigit (b / 16), hexDigit (b % 16)]
  else [b]

/-- Escape of a whole string. -/
def jsonEscape : List Nat → List Nat
  | [] => []
  | b :: bs => jsonEscapeByte b ++ jsonEscape bs

/-- Prepend a character to the string component of a scan result. -/
def consFst (b : Nat) (r : Option (List Nat × List Nat)) : Option (List Nat × List Nat) :=
  r.map (fun p => (b :: p.1, p.2))

/-- Scan a JSON string body (opening quote already consumed) up to the closing
quote: unescapes the standard escapes, rejects raw control characters, bad
escapes and a missing closing quote, and returns the content together with the
remaining input after the closing quote — the string fragment of `JSON.parse`. -/
def scanString : List Nat → Option (List Nat × List Nat)
  | [] => none
  | b :: rest =>
    if b = 34 then some ([], rest)
    else if b = 92 then
      match rest with
      | [] => none
      | c :: rest2 =>
        if c = 34 then consFst 34 (scanString rest2)
        else if c = 92 then consFst 92 (scanString rest2)
        else if c = 47 then consFst 47 (scanString rest2)
        else if c = 98 then consFst 8 (scanString rest2)
        else if c = 116 then consFst 9 (scanString rest2)
        else if c = 110 then consFst 10 (scanString rest2)
        else if c = 102 then consFst 12 (scanString rest2)
        else if c = 114 then consFst 13 (scanString rest2)
        else if c = 117 then
          match rest2 with
          | h1 :: h2 :: h3 :: h4 :: rest3 =>
            match hexVal h1, hexVal h2, hexVal h3, hexVal h4 with
            | some v1, some v2, some v3, some v4 =>
                consFst (4096 * v1 + 256 * v2 + 16 * v3 + v4) (scanString rest3)
            | _, _, _, _ => none
          | _ => none
        else none
    else if b < 32 then none
    else consFst b (scanString rest)

/-- Unfolding lemmas for `scanString` (its structural recursion does not
definitionally reduce on a variable tail). -/
theorem scanString_quote (rest : List Nat) : scanString (34 :: rest) = some ([], rest) := by
  rw [scanString.eq_def]; simp

theorem scanString_escQuote (t : List Nat) :
    scanString (92 :: 34 :: t) = consFst 34 (scanString t) := by
  rw [scanString.eq_def]; simp

theorem scanString_escBackslash (t : List Nat) :
    scanString (92 :: 92 :: t) = consFst 92 (scanString t) := by
  rw [scanString.eq_def]; simp

theorem scanString_escB (t : List Nat) :
    scanString (92 :: 98 :: t) = consFst 8 (scanString t) := by
  rw [scanString.eq_def]; simp

theorem scanString_escT (t : List Nat) :
    scanString (92 :: 116 :: t) = consFst 9 (scanString t) := by
  rw [scanString.eq_def]; simp

theorem scanString_escN (t : List Nat) :
    scanString (92 :: 110 :: t) = consFst 10 (scanString t) := by
  rw [scanString.eq_def]; simp

theorem scanString_escF (t : List Nat) :
    scanString (92 :: 102 :: t) = consFst 12 (scanString t) := by
  rw [scanString.eq_def]; simp

theorem scanString_escR (t : List Nat) :
    scanString (92 :: 114 :: t) = consFst 13 (scanString t) := by
  rw [scanString.eq_def]; simp

theorem scanString_escU (h1 h2 h3 h4 : Nat) (t : List Nat) :
    scanString (92 :: 117 :: h1 :: h2 :: h3 :: h4 :: t) =
      (match hexVal h1, hexVal h2, hexVal h3, hexVal h4 with
        | some v1, some v2, some v3, some v4 =>
            consFst (4096 * v1 + 256 * v2 + 16 * v3 + v4) (scanString t)
        | _, _, _, _ => none) := by
  rw [scanString.eq_def]; simp

theorem scanString_other (b : Nat) (t : List Nat) (h34 : b ≠ 34) (h92 : b ≠ 92)
    (hc : ¬ b < 32) : scanString (b :: t) = consFst b (scanString t) := by
  rw [scanString.eq_def]; simp [h34, h92, hc]

theorem scanString_escape (s : List Nat) : ∀ rest : List Nat,
    scanString (jsonEscape s ++ 34 :: rest) = some (s, rest) := by
  induction s with
  | nil => intro rest; simp [jsonEscape, scanString_quote]
  | cons b bs ih =>
      intro rest
      show scanString ((jsonEscapeByte b ++ jsonEscape bs) ++ 34 :: rest) = _
      rw [List.append_assoc]
      unfold jsonEscapeByte
      by_cases h34 : b = 34
      · subst h34; simp [scanString_escQuote, consFst, ih rest]
      · by_cases h92 : b = 92
        · subst h92; simp [h34, scanString_escBackslash, consFst, ih rest]
        · by_cases h8 : b = 8
          · subst h8; simp [h34, h92, scanString_escB, consFst, ih rest]
          · by_cases h9 : b = 9
            · subst h9; simp [h34, h92, h8, scanString_escT, consFst, ih rest]
            · by_cases h10 : b = 10
              · subst h10; simp [h34, h92, h8, h9, scanString_escN, consFst, ih rest]
              · by_cases h12 : b = 12
                · subst h12; simp [h34, h92, h8, h9, h10, scanString_escF, consFst, ih rest]
                · by_cases h13 : b = 13
                  · subst h13
                    simp [h34, h92, h8, h9, h10, h12, scanString_escR, consFst, ih rest]
                  · by_cases hc : b < 32
                    · have hv1 := hexVal_hexDigit (b / 16) (by omega)
                      have hv2 := hexVal_hexDigit (b % 16) (by omega)
                      have hb : 4096 * 0 + 256 * 0 + 16 * (b / 16) + b % 16 = b := by omega
                      have h48 : hexVal 48 = some 0 := by decide
                      simp only [h34, h92, h8, h9, h10, h12, h13, hc, if_true, if_false,
                        List.cons_append, List.nil_append, if_neg, ite_false, ite_true]
                      rw [scanString_escU]
                      rw [h48, hv1, hv2]
                      simp [consFst, ih rest, hb]
                      omega
                    · simp only [h34, h92, h8, h9, h10, h12, h13, hc, List.cons_append,
                        List.nil_append, ite_false, ite_true]
                      rw [scanString_other b _ h34 h92 hc]
                      simp [consFst, ih rest]

theorem hexDigit_ge (n : Nat) : 48 ≤ hexDigit n := by
  unfold hexDigit; split <;> omega

/-- `jsonEscape` never emits a raw newline: the metadata line of a checkpoint
file contains no byte 10, so the first newline in the file is the separator. -/
theorem jsonEscapeByte_ne_ten (b : Nat) : ∀ x ∈ jsonEscapeByte b, x ≠ 10 := by
  have hd1 := hexDigit_ge (b / 16)
  have hd2 := hexDigit_ge (b % 16)
  intro x hx
  unfold jsonEscapeByte at hx
  by_cases h34 : b = 34
  · simp [h34] at hx; omega
  · by_cases h92 : b = 92
    · simp [h34, h92] at hx; omega
    · by_cases h8 : b = 8
      · simp [h34, h92, h8] at hx; omega
      · by_cases h9 : b = 9
        · simp [h34, h92, h8, h9] at hx; omega
        · by_cases h10 : b = 10
          · simp [h34, h92, h8, h9, h10] at hx; omega
          · by_cases h12 : b = 12
            · simp [h34, h92, h8, h9, h10, h12] at hx; omega
            · by_cases h13 : b = 13
              · simp [h34, h92, h8, h9, h10, h12, h13] at hx; omega
              · by_cases hc : b < 32
                · simp [h34, h92, h8, h9, h10, h12, h13, hc] at hx; omega
                · simp [h34, h92, h8, h9, h10, h12, h13, hc] at hx; omega

theorem jsonEscape_ne_ten (s : List Nat) : ∀ x ∈ jsonEscape s, x ≠ 10 := by
  induction s with
  | nil => simp [jsonEscape]
  | cons b bs ih =>
      intro x hx
      rcases List.mem_append.mp hx with h | h
      · exact jsonEscapeByte_ne_ten b x h
      · exact ih x h

/-! # Wire codec (`src/unnamed/part_000`: `uploadWeightsBinary` / `fetchGlobalWeights`)

The frame is `[u32 headerLength][headerLength bytes of JSON][deltaA][deltaB]`.
The JSON header is the `JSON.stringify` image of the object literal built in
`uploadWeightsBinary`, with its insertion-order keys.  String fields are lists
of character codes; the numeric fields are modelled as nonnegative integers
(the source feeds `Date.now()`, counts and metric numbers through unchanged). -/

structure WireMeta where
  deviceId : List Nat
  modelId : List Nat
  timestamp : Nat
  numExamples : Nat
  finalLoss : Nat
  avgSpeed : Nat
  totalEpochs : Nat
deriving DecidableEq

def wireL1 : List Nat := [123, 34, 100, 101, 118, 105, 99, 101, 73, 100, 34, 58, 34]

def wireM2 : List Nat := [44, 34, 109, 111, 100, 101, 108, 73, 100, 34, 58, 34]

def wireM3 : List Nat := [44, 34, 116, 105, 109, 101, 115, 116, 97, 109, 112, 34, 58]

def wireM4 : List Nat := [44, 34, 110, 117, 109, 69, 120, 97, 109, 112, 108, 101, 115, 34, 58]

def wireM5 : List Nat :=
  [44, 34, 109, 101, 116, 114, 105, 99, 115, 34, 58, 123, 34, 102, 105, 110, 97, 108,
   76, 111, 115, 115, 34, 58]

def wireM6 : List Nat := [44, 34, 97, 118, 103, 83, 112, 101, 101, 100, 34, 58]

def wireM7 : List Nat := [44, 34, 116, 111, 116, 97, 108, 69, 112, 111, 99, 104, 115, 34, 58]

def wireM8 : List Nat :=
  [125, 44, 34, 100, 101, 108, 116, 97, 65, 76, 101, 110, 103, 116, 104, 34, 58]

def wireM9 : List Nat := [44, 34, 100, 101, 108, 116, 97, 66, 76, 101, 110, 103, 116, 104, 34, 58]

def wireM10 : List Nat := [125]

/-- The `JSON.stringify` image of the header object of `uploadWeightsBinary`:
device id, model id, timestamp, example count, a nested metrics object, and
the two element counts `deltaALength`, `deltaBLength` taken from the arrays. -/
def headerJson (m : WireMeta) (aLen bLen : Nat) : List Nat :=
  wireL1 ++ jsonEscape m.deviceId ++ [34] ++
  wireM2 ++ jsonEscape m.modelId ++ [34] ++
  wireM3 ++ natDigits m.timestamp ++
  wireM4 ++ natDigits m.numExamples ++
  wireM5 ++ natDigits m.finalLoss ++
  wireM6 ++ natDigits m.avgSpeed ++
  wireM7 ++ natDigits m.totalEpochs ++
  wireM8 ++ natDigits aLen ++
  wireM9 ++ natDigits bLen ++
  wireM10

/-- Match a literal byte sequence at the head of the input. -/
def expectBytes : List Nat → List Nat → Option (List Nat)
  | [], s => some s
  | _ :: _, [] => none
  | l :: ls, b :: bs => if b = l then expectBytes ls bs else none

theorem expectBytes_append : ∀ lit rest : List Nat, expectBytes lit (lit ++ rest) = some rest := by
  intro lit
  induction lit with
  | nil => intro rest; rw [expectBytes.eq_def]; simp
  | cons l ls ih => intro rest; rw [List.cons_append, expectBytes.eq_def]; simp [ih rest]

/-- The head of the remaining input is a non-digit (so a maximal-munch number
parse stops exactly there). -/
def headNonDigit : List Nat → Prop
  | [] => False
  | c :: _ => isDigit c = false

theorem parseNat_headNonDigit (n : Nat) (rest : List Nat) (h : headNonDigit rest) :
    parseNat (natDigits n ++ rest) = some (n, rest) := by
  cases rest with
  | nil => exact absurd h (by simp [headNonDigit])
  | cons c r => exact parseNat_digits n c r h

theorem headNonDigit_wireM4 (X : List Nat) : headNonDigit (wireM4 ++ X) := by
  show isDigit 44 = false; decide

theorem headNonDigit_wireM5 (X : List Nat) : headNonDigit (wireM5 ++ X) := by
  show isDigit 44 = false; decide

theorem headNonDigit_wireM6 (X : List Nat) : headNonDigit (wireM6 ++ X) := by
  show isDigit 44 = false; decide

theorem headNonDigit_wireM7 (X : List Nat) : headNonDigit (wireM7 ++ X) := by
  show isDigit 44 = false; decide

theorem headNonDigit_wireM8 (X : List Nat) : headNonDigit (wireM8 ++ X) := by
  show isDigit 125 = false; decide

theorem headNonDigit_wireM9 (X : List Nat) : headNonDigit (wireM9 ++ X) := by
  show isDigit 44 = false; decide

theorem headNonDigit_wireM10 : headNonDigit wireM10 := by
  show isDigit 125 = false; decide

theorem expectBytes_wireM10_self : expectBytes wireM10 wireM10 = some [] := by decide

/-- First third of the header grammar: device id, model id, timestamp. -/
def parseWireIds (s : List Nat) : Option (List Nat × List Nat × Nat × List Nat) := do
  let s ← expectBytes wireL1 s
  let (dev, s) ← scanString s
  let s ← expectBytes wireM2 s
  let (mid, s) ← scanString s
  let s ← expectBytes wireM3 s
  let (ts, s) ← parseNat s
  some (dev, mid, ts, s)

/-- Middle third: example count, final loss, average speed. -/
def parseWireMetrics (s : List Nat) : Option (Nat × Nat × Nat × List Nat) := do
  let s ← expectBytes wireM4 s
  let (ne, s) ← parseNat s
  let s ← expectBytes wireM5 s
  let (fl, s) ← parseNat s
  let s ← expectBytes wireM6 s
  let (sp, s) ← parseNat s
  some (ne, fl, sp, s)

/-- Last third: total epochs and the two element counts, then end of input. -/
def parseWireLens (s : List Nat) : Option (Nat × Nat × Nat) := do
  let s ← expectBytes wireM7 s
  let (te, s) ← parseNat s
  let s ← expectBytes wireM8 s
  let (al, s) ← parseNat s
  let s ← expectBytes wireM9 s
  let (bl, s) ← parseNat s
  let s ← expectBytes wireM10 s
  if s.isEmpty then some (te, al, bl) else none

/-- `JSON.parse` restricted to the exact header shape `uploadWeightsBinary`
serializes (the only shape `fetchGlobalWeights` ever accepts in full; any
other input is a parse failure, which the source's catch turns into `null`).
The parse must consume the whole header. -/
def parseWireHeader (s : List Nat) : Option (WireMeta × Nat × Nat) :=
  match parseWireIds s with
  | none => none
  | some (dev, mid, ts, s) =>
    match parseWireMetrics s with
    | none => none
    | some (ne, fl, sp, s) =>
      match parseWireLens s with
      | none => none
      | some (te, al, bl) => some (⟨dev, mid, ts, ne, fl, sp, te⟩, al, bl)

theorem parseWireIds_spec (dev mid : List Nat) (ts : Nat) (X : List Nat) :
    parseWireIds (wireL1 ++ (jsonEscape dev ++ (34 :: (wireM2 ++ (jsonEscape mid ++
      (34 :: (wireM3 ++ (natDigits ts ++ (wireM4 ++ X))))))))) =
      some (dev, mid, ts, wireM4 ++ X) := by
  simp only [parseWireIds, Option.bind_eq_bind, Option.some_bind, expectBytes_append,
    scanString_escape, parseNat_headNonDigit _ _ (headNonDigit_wireM4 X)]

theorem parseWireMetrics_spec (ne fl sp : Nat) (X : List Nat) :
    parseWireMetrics (wireM4 ++ (natDigits ne ++ (wireM5 ++ (natDigits fl ++
      (wireM6 ++ (natDigits sp ++ (wireM7 ++ X))))))) =
      some (ne, fl, sp, wireM7 ++ X) := by
  simp only [parseWireMetrics, Option.bind_eq_bind, Option.some_bind, expectBytes_append,
    parseNat_headNonDigit _ _ (headNonDigit_wireM5 _),
    parseNat_headNonDigit _ _ (headNonDigit_wireM6 _),
    parseNat_headNonDigit _ _ (headNonDigit_wireM7 X)]

theorem parseWireLens_spec (te al bl : Nat) :
    parseWireLens (wireM7 ++ (natDigits te ++ (wireM8 ++ (natDigits al ++
      (wireM9 ++ (natDigits bl ++ wireM10)))))) = some (te, al, bl) := by
  simp only [parseWireLens, Option.bind_eq_bind, Option.some_bind, expectBytes_append,
    parseNat_headNonDigit _ _ (headNonDigit_wireM8 _),
    parseNat_headNonDigit _ _ (headNonDigit_wireM9 _),
    parseNat_headNonDigit _ _ headNonDigit_wireM10,
    expectBytes_wireM10_self, List.isEmpty_nil, if_true]

theorem parseWireHeader_headerJson (m : WireMeta) (aLen bLen : Nat) :
    parseWireHeader (headerJson m aLen bLen) = some (m, aLen, bLen) := by
  obtain ⟨dev, mid, ts, ne, fl, sp, te⟩ := m
  simp only [parseWireHeader, headerJson, List.append_assoc, List.singleton_append,
    List.cons_append, List.nil_append, parseWireIds_spec, parseWireMetrics_spec,
    parseWireLens_spec]

/-- `uploadWeightsBinary` (`src/unnamed/part_000`, lines 64-133), modelled up
to the POST: builds the frame
`[u32 headerLength][header JSON][deltaA][deltaB]` and returns its bytes.
`new Float32Array(buffer, weightsOffset, deltaA.length)` throws a `RangeError`
unless `weightsOffset = 4 + headerLength` is a multiple of 4; the function's
`try`/`catch` turns that throw into a failed upload (`success: false`, nothing
sent) — modelled as `none`.  The `timestamp` travels inside `m` (`Date.now()`
is an oracle). -/
def uploadWeightsBinary (m : WireMeta) (deltaA deltaB : List Nat) : Option (List Nat) :=
  let headerBytes := headerJson m deltaA.length deltaB.length
  if (4 + headerBytes.length) % 4 = 0 then
    some (u32Bytes headerBytes.length ++ headerBytes ++
      wordsToBytes deltaA ++ wordsToBytes deltaB)
  else none

/-- `fetchGlobalWeights` (`src/unnamed/part_000`, lines 138-171), modelled from
the received `ArrayBuffer` on: reads the u32 header length, slices and parses
the JSON header, then views the two float arrays at the declared offsets and
lengths.  Every `RangeError` of `DataView`/`Uint8Array`/`Float32Array` on a
short or misaligned buffer and every `JSON.parse` failure is caught by the
source and returned as `null` (`none` here).  The parsed metadata is used only
for `deltaALength`/`deltaBLength` and then discarded, exactly as in the
source. -/
def fetchGlobalWeights (buf : List Nat) : Option (List Nat × List Nat) :=
  match readU32le buf with
  | none => none
  | some headerLength =>
    if 4 + headerLength ≤ buf.length then
      match parseWireHeader ((buf.drop 4).take headerLength) with
      | none => none
      | some (_, aLen, bLen) =>
        if (4 + headerLength) % 4 = 0 then
          if 4 + headerLength + 4 * aLen ≤ buf.length then
            if 4 + headerLength + 4 * aLen + 4 * bLen ≤ buf.length then
              some (groupWords ((buf.drop (4 + headerLength)).take (4 * aLen)),
                    groupWords ((buf.drop (4 + headerLength + 4 * aLen)).take (4 * bLen)))
            else none
          else none
        else none
    else none

/-- `WebGPUEngine.deserializeWeights` (`src/frontend/workers/webgpu-engine.ts`,
lines 333-342): reads the two u32 element counts at offsets 0 and 4, then the
two float arrays at offsets 8 and `8 + 4 * aLength`.  A buffer too short for
any of these reads makes the typed-array construction throw a `RangeError`
before any memory is read out of bounds; `none` models that throw. -/
def deserializeWeights (buf : List Nat) : Option (List Nat × List Nat) :=
  match readU32le buf, readU32le (buf.drop 4) with
  | some aLength, some bLength =>
      if 8 + 4 * aLength ≤ buf.length then
        if 8 + 4 * aLength + 4 * bLength ≤ buf.length then
          some (groupWords ((buf.drop 8).take (4 * aLength)),
                groupWords ((buf.drop (8 + 4 * aLength)).take (4 * bLength)))
        else none
      else none
  | _, _ => none

theorem readU32le_u32Bytes (w : Nat) (rest : List Nat) (h : w < 4294967296) :
    readU32le (u32Bytes w ++ rest) = some w := by
  simp [u32Bytes, readU32le, bytesToWord_u32Bytes w h]

theorem groupWords_length_aux : ∀ (n : Nat) (bs : List Nat), bs.length = n →
    (groupWords bs).length = bs.length / 4 := by
  intro n
  induction n using Nat.strong_induction_on with
  | _ n ih =>
      intro bs hn
      match bs with
      | [] => simp [groupWords]
      | [a] => simp [groupWords]
      | [a, b] => simp [groupWords]
      | [a, b, c] => simp [groupWords]
      | a :: b :: c :: d :: r =>
          rw [groupWords]
          simp only [List.length_cons]
          rw [ih r.length (by simp at hn; omega) r rfl]
          omega

theorem groupWords_length (bs : List Nat) : (groupWords bs).length = bs.length / 4 :=
  groupWords_length_aux bs.length bs rfl

theorem wire_frame_sections (m : WireMeta) (A B : List Nat)
    (hh : (headerJson m A.length B.length).length < 4294967296) :
    readU32le (u32Bytes (headerJson m A.length B.length).length ++
        (headerJson m A.length B.length ++ (wordsToBytes A ++ wordsToBytes B))) =
      some (headerJson m A.length B.length).length ∧
    ((u32Bytes (headerJson m A.length B.length).length ++
        (headerJson m A.length B.length ++ (wordsToBytes A ++ wordsToBytes B))).drop 4).take
        (headerJson m A.length B.length).length = headerJson m A.length B.length ∧
    (u32Bytes (headerJson m A.length B.length).length ++
        (headerJson m A.length B.length ++ (wordsToBytes A ++ wordsToBytes B))).drop
        (4 + (headerJson m A.length B.length).length) = wordsToBytes A ++ wordsToBytes B ∧
    (u32Bytes (headerJson m A.length B.length).length ++
        (headerJson m A.length B.length ++ (wordsToBytes A ++ wordsToBytes B))).drop
        (4 + (headerJson m A.length B.length).length + 4 * A.length) = wordsToBytes B := by
  set hJ := headerJson m A.length B.length with hJdef
  refine ⟨readU32le_u32Bytes _ _ hh, ?_, ?_, ?_⟩
  · rw [List.drop_left' (u32Bytes_length _), List.take_left]
  · rw [show u32Bytes hJ.length ++ (hJ ++ (wordsToBytes A ++ wordsToBytes B)) =
        (u32Bytes hJ.length ++ hJ) ++ (wordsToBytes A ++ wordsToBytes B) from
        (List.append_assoc _ _ _).symm]
    exact List.drop_left' (by simp [u32Bytes]; omega)
  · rw [show u32Bytes hJ.length ++ (hJ ++ (wordsToBytes A ++ wordsToBytes B)) =
        ((u32Bytes hJ.length ++ hJ) ++ wordsToBytes A) ++ wordsToBytes B from by
        simp [List.append_assoc]]
    refine List.drop_left' ?_
    simp [u32Bytes, wordsToBytes_length]
    omega

theorem fetchGlobalWeights_frame (m : WireMeta) (A B : List Nat)
    (hA : validWords A) (hB : validWords B)
    (hh : (headerJson m A.length B.length).length < 4294967296)
    (hal : (4 + (headerJson m A.length B.length).length) % 4 = 0) :
    fetchGlobalWeights (u32Bytes (headerJson m A.length B.length).length ++
        (headerJson m A.length B.length ++ (wordsToBytes A ++ wordsToBytes B))) =
      some (A, B) := by
  obtain ⟨e1, e2, e3, e4⟩ := wire_frame_sections m A B hh
  set hJ := headerJson m A.length B.length with hJdef
  set buf := u32Bytes hJ.length ++ (hJ ++ (wordsToBytes A ++ wordsToBytes B)) with bufdef
  have hbuf : buf.length = 4 + hJ.length + 4 * A.length + 4 * B.length := by
    rw [bufdef]
    simp [u32Bytes, wordsToBytes_length]
    omega
  have e5 : parseWireHeader ((buf.drop 4).take hJ.length) = some (m, A.length, B.length) := by
    rw [e2, hJdef]
    exact parseWireHeader_headerJson m A.length B.length
  have e6 : (wordsToBytes A ++ wordsToBytes B).take (4 * A.length) = wordsToBytes A :=
    List.take_left' (wordsToBytes_length A)
  have e7 : (wordsToBytes B).take (4 * B.length) = wordsToBytes B := by
    rw [← wordsToBytes_length B]
    exact List.take_length _
  have c1 : 4 + hJ.length ≤ buf.length := by rw [hbuf]; omega
  have c2 : 4 + hJ.length + 4 * A.length ≤ buf.length := by rw [hbuf]; omega
  have c3 : 4 + hJ.length + 4 * A.length + 4 * B.length ≤ buf.length := by rw [hbuf]
  unfold fetchGlobalWeights
  simp only [e1, e5, c1, c2, c3, hal, if_true, e3, e6, e4, e7,
    groupWords_wordsToBytes A hA, groupWords_wordsToBytes B hB]

/-- Concrete metadata whose serialized header has byte length 149 (not a
multiple of 4): device id `d`, model id `m`, all numeric fields 1. -/
def wireMeta0 : WireMeta := ⟨[100], [109], 1, 1, 1, 1, 1⟩

/-- Concrete metadata whose serialized header has byte length 152 (a multiple
of 4): device id `dddd`, model id `m`, all numeric fields 1. -/
def wireMeta1 : WireMeta := ⟨[100, 100, 100, 100], [109], 1, 1, 1, 1, 1⟩

/-- C3 counterexample: for metadata whose serialized JSON header length is not
a multiple of 4 — the generic case — the encoder itself fails: the
`Float32Array` view at byte offset `4 + headerLength` throws `RangeError`,
`uploadWeightsBinary` catches it and reports a failed upload, and no frame is
produced, so `decode (encode (m, A, B)) = (m, A, B)` fails at `(wireMeta0,
[0], [])`. -/
theorem uploadWeightsBinary_misaligned_header_fails :
    uploadWeightsBinary wireMeta0 [0] [] = none ∧
    (headerJson wireMeta0 1 0).length % 4 = 1 := by decide

/-- C3 (amended): when the serialized header's byte length is a multiple of 4
(and the element counts fit in the u32 header field), encoding succeeds and
decoding the frame reproduces the two matrices bit-identically; the metadata
survives in the frame and is recovered by the decoder's internal `JSON.parse`,
but `fetchGlobalWeights` returns only the matrices and discards it. -/
theorem wire_codec_roundtrip (m : WireMeta) (A B : List Nat)
    (hA : validWords A) (hB : validWords B)
    (hh : (headerJson m A.length B.length).length < 4294967296)
    (hal : (headerJson m A.length B.length).length % 4 = 0) :
    uploadWeightsBinary m A B =
      some (u32Bytes (headerJson m A.length B.length).length ++
        (headerJson m A.length B.length ++ (wordsToBytes A ++ wordsToBytes B))) ∧
    fetchGlobalWeights (u32Bytes (headerJson m A.length B.length).length ++
        (headerJson m A.length B.length ++ (wordsToBytes A ++ wordsToBytes B))) =
      some (A, B) ∧
    parseWireHeader (headerJson m A.length B.length) = some (m, A.length, B.length) := by
  refine ⟨?_, ?_, ?_⟩
  · have h4 : (4 + (headerJson m A.length B.length).length) % 4 = 0 := by omega
    simp [uploadWeightsBinary, h4, List.append_assoc]
  · exact fetchGlobalWeights_frame m A B hA hB hh (by omega)
  · exact parseWireHeader_headerJson m A.length B.length

/-- C3 witness: a concrete aligned round trip. -/
theorem wire_codec_roundtrip_witness :
    uploadWeightsBinary wireMeta1 [5] [] =
      some (u32Bytes (headerJson wireMeta1 1 0).length ++
        (headerJson wireMeta1 1 0 ++ (wordsToBytes [5] ++ wordsToBytes []))) ∧
    fetchGlobalWeights (u32Bytes (headerJson wireMeta1 1 0).length ++
        (headerJson wireMeta1 1 0 ++ (wordsToBytes [5] ++ wordsToBytes []))) =
      some ([5], []) ∧
    parseWireHeader (headerJson wireMeta1 1 0) = some (wireMeta1, 1, 0) :=
  wire_codec_roundtrip wireMeta1 [5] [] (by decide) (by decide) (by decide) (by decide)

theorem readU32le_short (buf : List Nat) (h : buf.length < 4) : readU32le buf = none := by
  match buf with
  | [] => rfl
  | [a] => rfl
  | [a, b] => rfl
  | [a, b, c] => rfl
  | a :: b :: c :: d :: r => simp at h; omega

/-- Inversion of a successful `fetchGlobalWeights`: every guard along the way
held, and the result lengths are the declared lengths. -/
theorem fetchGlobalWeights_some_inv (buf A B : List Nat)
    (hf : fetchGlobalWeights buf = some (A, B)) :
    ∃ h m, readU32le buf = some h ∧ 4 + h ≤ buf.length ∧
      parseWireHeader ((buf.drop 4).take h) = some (m, A.length, B.length) ∧
      (4 + h) % 4 = 0 ∧ 4 + h + 4 * A.length + 4 * B.length ≤ buf.length := by
  unfold fetchGlobalWeights at hf
  cases hr : readU32le buf with
  | none => rw [hr] at hf; simp at hf
  | some h =>
      rw [hr] at hf
      simp only [] at hf
      by_cases hle : 4 + h ≤ buf.length
      · rw [if_pos hle] at hf
        cases hp : parseWireHeader ((buf.drop 4).take h) with
        | none => rw [hp] at hf; simp at hf
        | some triple =>
            obtain ⟨m, aLen, bLen⟩ := triple
            rw [hp] at hf
            simp only [] at hf
            by_cases hal : (4 + h) % 4 = 0
            · rw [if_pos hal] at hf
              by_cases ha : 4 + h + 4 * aLen ≤ buf.length
              · rw [if_pos ha] at hf
                by_cases hb : 4 + h + 4 * aLen + 4 * bLen ≤ buf.length
                · rw [if_pos hb] at hf
                  simp only [Option.some.injEq, Prod.mk.injEq] at hf
                  obtain ⟨hA, hB⟩ := hf
                  have lA : A.length = aLen := by
                    rw [← hA, groupWords_length, List.length_take, List.length_drop]
                    omega
                  have lB : B.length = bLen := by
                    rw [← hB, groupWords_length, List.length_take, List.length_drop]
                    omega
                  refine ⟨h, m, rfl, hle, ?_, hal, by omega⟩
                  rw [lA, lB]
                  exact hp
                · rw [if_neg hb] at hf; simp at hf
              · rw [if_neg ha] at hf; simp at hf
            · rw [if_neg hal] at hf; simp at hf
      · rw [if_neg hle] at hf; simp at hf

/-- Inversion of a successful `deserializeWeights`. -/
theorem deserializeWeights_some_inv (buf A B : List Nat)
    (hf : deserializeWeights buf = some (A, B)) :
    readU32le buf = some A.length ∧ readU32le (buf.drop 4) = some B.length ∧
      8 + 4 * A.length + 4 * B.length ≤ buf.length := by
  unfold deserializeWeights at hf
  cases hr : readU32le buf with
  | none => rw [hr] at hf; simp at hf
  | some aLength =>
      cases hr2 : readU32le (buf.drop 4) with
      | none => rw [hr, hr2] at hf; simp at hf
      | some bLength =>
          rw [hr, hr2] at hf
          simp only [] at hf
          by_cases ha : 8 + 4 * aLength ≤ buf.length
          · rw [if_pos ha] at hf
            by_cases hb : 8 + 4 * aLength + 4 * bLength ≤ buf.length
            · rw [if_pos hb] at hf
              simp only [Option.some.injEq, Prod.mk.injEq] at hf
              obtain ⟨hA, hB⟩ := hf
              have lA : A.length = aLength := by
                rw [← hA, groupWords_length, List.length_take, List.length_drop]
                omega
              have lB : B.length = bLength := by
                rw [← hB, groupWords_length, List.length_take, List.length_drop]
                omega
              rw [lA, lB]
              exact ⟨rfl, rfl, by omega⟩
            · rw [if_neg hb] at hf; simp at hf
          · rw [if_neg ha] at hf; simp at hf

/-- C6: a buffer with fewer than 4 bytes, a declared header length past the end
of the buffer, or declared matrix lengths past the end of the buffer all make
the decoder fail (the `RangeError` of the view constructor, caught and
returned as `null` by `fetchGlobalWeights`, propagated by
`deserializeWeights`); and any successful decode read only bytes inside the
buffer. -/
theorem decode_rejects_short_frames :
    (∀ buf : List Nat, buf.length < 4 → fetchGlobalWeights buf = none) ∧
    (∀ buf h, readU32le buf = some h → buf.length < 4 + h →
      fetchGlobalWeights buf = none) ∧
    (∀ buf h m aLen bLen, readU32le buf = some h → 4 + h ≤ buf.length →
      parseWireHeader ((buf.drop 4).take h) = some (m, aLen, bLen) →
      buf.length < 4 + h + 4 * aLen → fetchGlobalWeights buf = none) ∧
    (∀ buf h m aLen bLen, readU32le buf = some h → 4 + h ≤ buf.length →
      parseWireHeader ((buf.drop 4).take h) = some (m, aLen, bLen) →
      buf.length < 4 + h + 4 * aLen + 4 * bLen → fetchGlobalWeights buf = none) ∧
    (∀ buf A B, fetchGlobalWeights buf = some (A, B) →
      ∃ h, readU32le buf = some h ∧ 4 + h + 4 * A.length + 4 * B.length ≤ buf.length) ∧
    (∀ buf : List Nat, buf.length < 8 → deserializeWeights buf = none) ∧
    (∀ buf A B, deserializeWeights buf = some (A, B) →
      8 + 4 * A.length + 4 * B.length ≤ buf.length) := by
  refine ⟨?_, ?_, ?_, ?_, ?_, ?_, ?_⟩
  · intro buf h
    simp [fetchGlobalWeights, readU32le_short buf h]
  · intro buf h hr hlt
    cases hf : fetchGlobalWeights buf with
    | none => rfl
    | some p =>
        obtain ⟨A, B⟩ := p
        obtain ⟨h2, m2, hr2, hle2, _, _, hb2⟩ := fetchGlobalWeights_some_inv buf A B hf
        rw [hr] at hr2
        simp only [Option.some.injEq] at hr2
        omega
  · intro buf h m aLen bLen hr hle hp hlt
    cases hf : fetchGlobalWeights buf with
    | none => rfl
    | some p =>
        obtain ⟨A, B⟩ := p
        obtain ⟨h2, m2, hr2, hle2, hp2, _, hb2⟩ := fetchGlobalWeights_some_inv buf A B hf
        rw [hr] at hr2
        simp only [Option.some.injEq] at hr2
        subst hr2
        rw [hp] at hp2
        simp only [Option.some.injEq, Prod.mk.injEq] at hp2
        omega
  · intro buf h m aLen bLen hr hle hp hlt
    cases hf : fetchGlobalWeights buf with
    | none => rfl
    | some p =>
        obtain ⟨A, B⟩ := p
        obtain ⟨h2, m2, hr2, hle2, hp2, _, hb2⟩ := fetchGlobalWeights_some_inv buf A B hf
        rw [hr] at hr2
        simp only [Option.some.injEq] at hr2
        subst hr2
        rw [hp] at hp2
        simp only [Option.some.injEq, Prod.mk.injEq] at hp2
        omega
  · intro buf A B hf
    obtain ⟨h, m, hr, _, _, _, hb⟩ := fetchGlobalWeights_some_inv buf A B hf
    exact ⟨h, hr, hb⟩
  · intro buf h
    have h4 : (buf.drop 4).length < 4 := by simp; omega
    cases hr : readU32le buf with
    | none => simp [deserializeWeights, hr]
    | some a => simp [deserializeWeights, hr, readU32le_short _ h4]
  · intro buf A B hf
    exact (deserializeWeights_some_inv buf A B hf).2.2

/-- C6 witness: a 2-byte buffer and the spec's concrete scenario — header
length `0xFFFFFFFF` declared on a 16-byte buffer — are both rejected. -/
theorem decode_rejects_short_frames_witness :
    fetchGlobalWeights [1, 2] = none ∧
    fetchGlobalWeights [255, 255, 255, 255, 0, 0, 0, 0, 0, 0, 0, 0, 0, 0, 0, 0] = none ∧
    deserializeWeights [1, 2, 3] = none :=
  ⟨decode_rejects_short_frames.1 [1, 2] (by decide),
   decode_rejects_short_frames.2.1 [255, 255, 255, 255, 0, 0, 0, 0, 0, 0, 0, 0, 0, 0, 0, 0]
     4294967295 (by decide) (by decide),
   decode_rejects_short_frames.2.2.2.2.2.1 [1, 2, 3] (by decide)⟩

/-! # Compute engine weight delta
(`src/frontend/workers/webgpu-engine.ts`, `computeWeightDelta`, lines 290-307)

The loops run over the *current* arrays' lengths; no length comparison is
performed.  In JavaScript, `initialA[i]` past the end is `undefined`, and
`currentA[i] - undefined` is `NaN`, stored into the output `Float32Array` as
NaN.  The scalar domain is a parameter: `sub` is the platform's subtraction on
the values read from the arrays, `nanv` the NaN produced by a subtraction with
`undefined`. -/

/-- One output array of `computeWeightDelta`: entry `i` (for `i` below the
current array's length) is `current[i] - initial[i]`, or NaN when `initial`
has no entry `i`. -/
def deltaEntries {α : Type} (sub : α → α → α) (nanv : α) (cur init : List α) : List α :=
  (List.range cur.length).map (fun i =>
    match cur[i]?, init[i]? with
    | some c, some x => sub c x
    | _, _ => nanv)

/-- `computeWeightDelta(currentA, currentB, initialA, initialB)`. -/
def computeWeightDelta {α : Type} (sub : α → α → α) (nanv : α)
    (currentA currentB initialA initialB : List α) : List α × List α :=
  (deltaEntries sub nanv currentA initialA, deltaEntries sub nanv currentB initialB)

inductive DeltaErr
  | shapeMismatch
deriving DecidableEq

/-- Following the spec's words (§4.2): `computeDelta(current, initial)` is
plain elementwise subtraction; both inputs must be equal length, else fail
with a ShapeMismatch error.  Stated for comparison with the source's
`computeWeightDelta`. -/
def computeDelta_spec {α : Type} (sub : α → α → α)
    (currentA currentB initialA initialB : List α) :
    Except DeltaErr (List α × List α) :=
  if currentA.length = initialA.length ∧ currentB.length = initialB.length then
    Except.ok (List.zipWith sub currentA initialA, List.zipWith sub currentB initialB)
  else Except.error DeltaErr.shapeMismatch

/-- Exact integers standing in for the float values of a concrete run (the
subtraction of two equal-valued floats is exactly representable, so integer
arithmetic is faithful on these witnesses). -/
inductive JsNum
  | num (v : Int)
  | nan
deriving DecidableEq

def jsSub : JsNum → JsNum → JsNum
  | JsNum.num a, JsNum.num b => JsNum.num (a - b)
  | _, _ => JsNum.nan

theorem deltaEntries_length {α : Type} (sub : α → α → α) (nanv : α) (cur init : List α) :
    (deltaEntries sub nanv cur init).length = cur.length := by
  simp [deltaEntries]

theorem deltaEntries_getElem? {α : Type} (sub : α → α → α) (nanv : α)
    (cur init : List α) (i : Nat) (hi : i < cur.length) :
    (deltaEntries sub nanv cur init)[i]? =
      some (match cur[i]?, init[i]? with
        | some c, some x => sub c x
        | _, _ => nanv) := by
  simp [deltaEntries, List.getElem?_map, List.getElem?_range, hi]

theorem deltaEntries_eq_zipWith {α : Type} (sub : α → α → α) (nanv : α)
    (cur init : List α) (h : cur.length = init.length) :
    deltaEntries sub nanv cur init = List.zipWith sub cur init := by
  apply List.ext_getElem?
  intro i
  by_cases hi : i < cur.length
  · rw [deltaEntries_getElem? sub nanv cur init i hi, List.getElem?_zipWith']
    have hi2 : i < init.length := by omega
    simp [List.getElem?_eq_getElem, hi, hi2]
  · have h1 : (deltaEntries sub nanv cur init)[i]? = none := by
      rw [List.getElem?_eq_none]
      rw [deltaEntries_length]
      omega
    have h2 : (List.zipWith sub cur init)[i]? = none := by
      rw [List.getElem?_eq_none]
      rw [List.length_zipWith]
      omega
    rw [h1, h2]

/-- C7 counterexample: on unequal lengths `computeWeightDelta` does not fail
with a ShapeMismatch error — there is no length check.  With a current matrix
of 2 entries and an initial matrix of 1 entry it returns a value whose second
entry is `NaN` (`currentA[1] - undefined`), while the spec's `computeDelta`
fails. -/
theorem computeWeightDelta_no_shape_check :
    computeWeightDelta jsSub JsNum.nan
        [JsNum.num 3, JsNum.num 5] [] [JsNum.num 1] [] =
      ([JsNum.num 2, JsNum.nan], []) ∧
    computeDelta_spec jsSub [JsNum.num 3, JsNum.num 5] [] [JsNum.num 1] [] =
      Except.error DeltaErr.shapeMismatch := ⟨rfl, rfl⟩

/-- C7 (amended): `computeWeightDelta` is total — it never signals a shape
error.  Its outputs always have the current matrices' lengths; entry `i` is
`current[i] - initial[i]` where the initial matrix has an entry `i` and NaN
where it does not.  Only when both shapes agree does it coincide with the
spec's `computeDelta` (elementwise subtraction); on unequal lengths the spec
fails while the source returns the NaN-padded value. -/
theorem computeWeightDelta_total (α : Type) (sub : α → α → α) (nanv : α)
    (cA cB iA iB : List α) :
    (computeWeightDelta sub nanv cA cB iA iB).1.length = cA.length ∧
    (computeWeightDelta sub nanv cA cB iA iB).2.length = cB.length ∧
    (∀ i : Nat, i < cA.length →
      (computeWeightDelta sub nanv cA cB iA iB).1[i]? =
        some (match cA[i]?, iA[i]? with
          | some c, some x => sub c x
          | _, _ => nanv)) ∧
    (∀ i : Nat, i < cB.length →
      (computeWeightDelta sub nanv cA cB iA iB).2[i]? =
        some (match cB[i]?, iB[i]? with
          | some c, some x => sub c x
          | _, _ => nanv)) ∧
    (∀ i : Nat, iA.length ≤ i → i < cA.length →
      (computeWeightDelta sub nanv cA cB iA iB).1[i]? = some nanv) ∧
    (cA.length = iA.length → cB.length = iB.length →
      computeDelta_spec sub cA cB iA iB =
        Except.ok (computeWeightDelta sub nanv cA cB iA iB)) := by
  refine ⟨deltaEntries_length _ _ _ _, deltaEntries_length _ _ _ _, ?_, ?_, ?_, ?_⟩
  · intro i hi
    exact deltaEntries_getElem? sub nanv cA iA i hi
  · intro i hi
    exact deltaEntries_getElem? sub nanv cB iB i hi
  · intro i hge hlt
    show (deltaEntries sub nanv cA iA)[i]? = some nanv
    rw [deltaEntries_getElem? sub nanv cA iA i hlt]
    have : iA[i]? = none := by rw [List.getElem?_eq_none]; omega
    rw [this]
    have hc : i < cA.length := hlt
    simp [List.getElem?_eq_getElem, hc]
  · intro hA hB
    unfold computeDelta_spec computeWeightDelta
    rw [if_pos ⟨hA, hB⟩, deltaEntries_eq_zipWith sub nanv cA iA hA,
      deltaEntries_eq_zipWith sub nanv cB iB hB]

/-- C7 witness: on matching shapes the source's value agrees with the spec's
elementwise subtraction. -/
theorem computeWeightDelta_total_witness :
    computeDelta_spec jsSub [JsNum.num 7] [JsNum.num 4] [JsNum.num 2] [JsNum.num 4] =
      Except.ok (computeWeightDelta jsSub JsNum.nan
        [JsNum.num 7] [JsNum.num 4] [JsNum.num 2] [JsNum.num 4]) :=
  (computeWeightDelta_total JsNum jsSub JsNum.nan
    [JsNum.num 7] [JsNum.num 4] [JsNum.num 2] [JsNum.num 4]).2.2.2.2.2 rfl rfl

/-! # Checkpoint store
(`src/frontend/workers/fl.worker.ts`: `saveCheckpoint` lines 128-157,
`loadLatestCheckpoint` lines 162-201)

A checkpoint file is `[JSON metadata line]\n[raw float32 payload]`.  The
metadata object is `{epoch, timestamp, modelId, size}` in insertion order,
with `size = adapterWeights.byteLength`. -/

structure CheckpointMeta where
  epoch : Nat
  timestamp : Nat
  modelId : List Nat
  size : Nat
deriving DecidableEq

def ckptK1 : List Nat := [123, 34, 101, 112, 111, 99, 104, 34, 58]

def ckptK2 : List Nat := [44, 34, 116, 105, 109, 101, 115, 116, 97, 109, 112, 34, 58]

def ckptK3 : List Nat := [44, 34, 109, 111, 100, 101, 108, 73, 100, 34, 58, 34]

def ckptK4 : List Nat := [44, 34, 115, 105, 122, 101, 34, 58]

def ckptK5 : List Nat := [125]

/-- The `JSON.stringify` image of the checkpoint metadata object. -/
def ckptMetaJson (m : CheckpointMeta) : List Nat :=
  ckptK1 ++ natDigits m.epoch ++ ckptK2 ++ natDigits m.timestamp ++
  ckptK3 ++ jsonEscape m.modelId ++ [34] ++ ckptK4 ++ natDigits m.size ++ ckptK5

/-- `JSON.parse` restricted to the exact checkpoint metadata shape
`saveCheckpoint` writes; any other first line fails, which the source's catch
turns into `null`. -/
def parseCkptMeta (s : List Nat) : Option CheckpointMeta := do
  let s ← expectBytes ckptK1 s
  let (ep, s) ← parseNat s
  let s ← expectBytes ckptK2 s
  let (ts, s) ← parseNat s
  let s ← expectBytes ckptK3 s
  let (mid, s) ← scanString s
  let s ← expectBytes ckptK4 s
  let (sz, s) ← parseNat s
  let s ← expectBytes ckptK5 s
  if s.isEmpty then some ⟨ep, ts, mid, sz⟩ else none

theorem headNonDigit_ckptK2 (X : List Nat) : headNonDigit (ckptK2 ++ X) := by
  show isDigit 44 = false; decide

theorem headNonDigit_ckptK3 (X : List Nat) : headNonDigit (ckptK3 ++ X) := by
  show isDigit 44 = false; decide

theorem headNonDigit_ckptK5 : headNonDigit ckptK5 := by
  show isDigit 125 = false; decide

theorem expectBytes_ckptK5_self : expectBytes ckptK5 ckptK5 = some [] := by decide

theorem parseCkptMeta_json (m : CheckpointMeta) : parseCkptMeta (ckptMetaJson m) = some m := by
  obtain ⟨ep, ts, mid, sz⟩ := m
  have h1 : ckptMetaJson ⟨ep, ts, mid, sz⟩ =
      ckptK1 ++ (natDigits ep ++ (ckptK2 ++ (natDigits ts ++ (ckptK3 ++ (jsonEscape mid ++
      (34 :: (ckptK4 ++ (natDigits sz ++ ckptK5)))))))) := by
    simp [ckptMetaJson, List.append_assoc]
  rw [h1]
  simp only [parseCkptMeta, Option.bind_eq_bind, Option.some_bind, expectBytes_append,
    scanString_escape,
    parseNat_headNonDigit _ _ (headNonDigit_ckptK2 _),
    parseNat_headNonDigit _ _ (headNonDigit_ckptK3 _),
    parseNat_headNonDigit _ _ headNonDigit_ckptK5,
    expectBytes_ckptK5_self, List.isEmpty_nil, if_true]

/-- One OPFS directory entry as `loadLatestCheckpoint` observes it:
`isCkptFile` models `handle.kind === 'file' &&
name.startsWith('checkpoint_epoch_')`; `nameEpoch` models
`parseInt(name.match(/epoch_(\d+)/)?.[1] || '-1')` (`-1` when the digits are
missing); `content` is the file's bytes.  Names are abstracted to these two
observations, the only uses the source makes of them. -/
structure DirEntry where
  isCkptFile : Bool
  nameEpoch : Int
  content : List Nat
deriving DecidableEq

/-- The scan loop of `loadLatestCheckpoint`: fold over the directory keeping
the file with the strictly greatest name epoch, starting from `(-1, null)`. -/
def findLatest (entries : List DirEntry) : Int × Option DirEntry :=
  entries.foldl
    (fun acc e =>
      if e.isCkptFile = true ∧ acc.1 < e.nameEpoch then (e.nameEpoch, some e) else acc)
    (-1, none)

/-- Parse one checkpoint file: the metadata line runs to the first byte 10
(`fullContent.indexOf(10)`; `-1`/absent gives `null`), the payload is the rest
viewed as a `Float32Array` (failing when its byte count is not a multiple of
4).  The returned epoch is `metadata.epoch`; the declared `size` is parsed but
never compared with the payload, exactly as in the source. -/
def parseCheckpointContent (bytes : List Nat) : Option (Nat × List Nat) :=
  if 10 ∈ bytes then
    match parseCkptMeta (bytes.take (bytes.indexOf 10)) with
    | none => none
    | some meta =>
      match bytesToWords (bytes.drop (bytes.indexOf 10 + 1)) with
      | none => none
      | some weights => some (meta.epoch, weights)
  else none

/-- `loadLatestCheckpoint`: pick the file with the greatest name epoch and
parse it; `none` when no checkpoint file exists or anything throws. -/
def loadLatestCheckpoint (entries : List DirEntry) : Option (Nat × List Nat) :=
  match (findLatest entries).2 with
  | none => none
  | some f => parseCheckpointContent f.content

/-- The directory entry `saveCheckpoint(epoch, adapterWeights)` creates:
filename `checkpoint_epoch_<epoch>.bin`, metadata line, newline, payload. -/
def mkCheckpointFile (epoch ts : Nat) (modelId : List Nat) (w : List Nat) : DirEntry :=
  { isCkptFile := true, nameEpoch := (epoch : Int),
    content := ckptMetaJson ⟨epoch, ts, modelId, 4 * w.length⟩ ++ [10] ++ wordsToBytes w }

theorem digit_ne_ten (b : Nat) (h : isDigit b = true) : b ≠ 10 := by
  unfold isDigit at h
  simp at h
  omega

theorem ten_not_mem_ckptMetaJson (m : CheckpointMeta) : 10 ∉ ckptMetaJson m := by
  intro hmem
  unfold ckptMetaJson at hmem
  simp only [List.mem_append, List.mem_singleton] at hmem
  rcases hmem with ((((((((h | h) | h) | h) | h) | h) | h) | h) | h) | h
  · revert h; decide
  · exact digit_ne_ten 10 (natDigits_all_digits m.epoch 10 h) rfl
  · revert h; decide
  · exact digit_ne_ten 10 (natDigits_all_digits m.timestamp 10 h) rfl
  · revert h; decide
  · exact jsonEscape_ne_ten m.modelId 10 h rfl
  · exact absurd h (by decide)
  · revert h; decide
  · exact digit_ne_ten 10 (natDigits_all_digits m.size 10 h) rfl
  · revert h; decide

theorem indexOf_append_ten (l r : List Nat) (hl : 10 ∉ l) :
    (l ++ 10 :: r).indexOf 10 = l.length := by
  induction l with
  | nil => simp [List.indexOf_cons_self]
  | cons x xs ih =>
      have hx : x ≠ 10 := by intro h; exact hl (by simp [h])
      have hxs : 10 ∉ xs := fun h => hl (by simp [h])
      simp only [List.cons_append, List.indexOf_cons]
      have : (x == 10) = false := by simp [hx]
      simp [this, ih hxs]

/-- Content-level behaviour of `loadLatestCheckpoint`'s parser on a file
written by `saveCheckpoint` with an arbitrary payload: the declared `size`
field plays no role; the result is determined by whether the payload parses as
a `Float32Array`. -/
theorem parseCheckpointContent_mk (m : CheckpointMeta) (bytes : List Nat) :
    parseCheckpointContent (ckptMetaJson m ++ [10] ++ bytes) =
      (bytesToWords bytes).map (fun w => (m.epoch, w)) := by
  have hm : 10 ∉ ckptMetaJson m := ten_not_mem_ckptMetaJson m
  have hform : ckptMetaJson m ++ [10] ++ bytes = ckptMetaJson m ++ 10 :: bytes := by
    simp
  rw [hform]
  have hidx : (ckptMetaJson m ++ 10 :: bytes).indexOf 10 = (ckptMetaJson m).length :=
    indexOf_append_ten _ _ hm
  have hmem : 10 ∈ ckptMetaJson m ++ 10 :: bytes := by simp
  unfold parseCheckpointContent
  rw [if_pos hmem, hidx]
  have htake : (ckptMetaJson m ++ 10 :: bytes).take (ckptMetaJson m).length =
      ckptMetaJson m := List.take_left _ _
  have hdrop : (ckptMetaJson m ++ 10 :: bytes).drop ((ckptMetaJson m).length + 1) =
      bytes := by
    rw [show ckptMetaJson m ++ 10 :: bytes = (ckptMetaJson m ++ [10]) ++ bytes by simp]
    exact List.drop_left' (by simp)
  rw [htake, hdrop, parseCkptMeta_json]
  cases bytesToWords bytes <;> simp

theorem findLatest_singleton (e : DirEntry) (he : e.isCkptFile = true)
    (hn : (-1 : Int) < e.nameEpoch) : findLatest [e] = (e.nameEpoch, some e) := by
  simp [findLatest, he, hn]

/-- Concrete corrupt checkpoint for C5: metadata declares `size` 4 but the
payload is 8 bytes (the two float words 1 and 2). -/
def mismatchEntry : DirEntry :=
  { isCkptFile := true, nameEpoch := 7,
    content := ckptMetaJson ⟨7, 3, [109], 4⟩ ++ [10] ++ wordsToBytes [1, 2] }

/-- C5 counterexample: a checkpoint whose payload length (8 bytes) disagrees
with its declared metadata length (4) is not treated as unreadable —
`loadLatestCheckpoint` returns it as if it were well formed, not the
empty-store result. -/
theorem loadLatest_mismatched_size_loaded :
    loadLatestCheckpoint [mismatchEntry] = some (7, [1, 2]) ∧
    loadLatestCheckpoint [] = none := by decide

/-- C5 (amended): `loadLatestCheckpoint` never compares the declared `size`
with the payload.  A checkpoint whose payload length disagrees with its
declared length is loaded anyway with the actual payload, provided the
payload's byte count is a multiple of 4; when it is not (so the
`Float32Array` view throws), the load behaves as if no checkpoint existed,
returning `none` to the caller instead of raising. -/
theorem loadLatest_ignores_declared_size (epoch ts declared : Nat) (mid : List Nat)
    (w : List Nat) (hw : validWords w) (bytes : List Nat)
    (hb : bytes.length % 4 ≠ 0) :
    loadLatestCheckpoint
      [⟨true, (epoch : Int), ckptMetaJson ⟨epoch, ts, mid, declared⟩ ++ [10] ++
        wordsToBytes w⟩] = some (epoch, w) ∧
    loadLatestCheckpoint
      [⟨true, (epoch : Int), ckptMetaJson ⟨epoch, ts, mid, declared⟩ ++ [10] ++ bytes⟩] =
      none := by
  constructor
  · unfold loadLatestCheckpoint
    rw [findLatest_singleton _ rfl (by show (-1 : Int) < (epoch : Int); omega)]
    simp only []
    exact (parseCheckpointContent_mk ⟨epoch, ts, mid, declared⟩ (wordsToBytes w)).trans
      (by rw [bytesToWords_wordsToBytes w hw]; rfl)
  · unfold loadLatestCheckpoint
    rw [findLatest_singleton _ rfl (by show (-1 : Int) < (epoch : Int); omega)]
    simp only []
    rw [parseCheckpointContent_mk ⟨epoch, ts, mid, declared⟩ bytes]
    unfold bytesToWords
    rw [if_neg hb]
    rfl

/-- C5 witness: epoch 2, declared size 4, actual payload 8 bytes is loaded;
a 3-byte payload (not a multiple of 4) yields `none`. -/
theorem loadLatest_ignores_declared_size_witness :
    loadLatestCheckpoint
      [⟨true, (2 : Int), ckptMetaJson ⟨2, 9, [109], 4⟩ ++ [10] ++
        wordsToBytes [5, 6]⟩] = some (2, [5, 6]) ∧
    loadLatestCheckpoint
      [⟨true, (2 : Int), ckptMetaJson ⟨2, 9, [109], 4⟩ ++ [10] ++ [0, 0, 0]⟩] = none :=
  loadLatest_ignores_declared_size 2 9 4 [109] [5, 6] (by decide) [0, 0, 0] (by decide)

/-- Scanning checkpoint files for epochs `0..k` selects the one with the
greatest name epoch, `k` (strict `>` in the fold keeps the first maximum; here
epochs are distinct and ascending). -/
theorem findLatest_range (f : Nat → DirEntry)
    (hf : ∀ i, (f i).isCkptFile = true) (he : ∀ i, (f i).nameEpoch = (i : Int)) :
    ∀ k, findLatest ((List.range (k + 1)).map f) = ((k : Int), some (f k)) := by
  intro k
  induction k with
  | zero =>
      unfold findLatest
      rw [show List.range 1 = [0] from rfl]
      simp only [List.map_cons, List.map_nil, List.foldl_cons, List.foldl_nil]
      have hc : (f 0).isCkptFile = true ∧ ((-1 : Int), (none : Option DirEntry)).1 <
          (f 0).nameEpoch := by
        refine ⟨hf 0, ?_⟩
        show (-1 : Int) < (f 0).nameEpoch
        rw [he 0]
        omega
      rw [if_pos hc, he 0]
  | succ n ih =>
      unfold findLatest at ih ⊢
      rw [List.range_succ, List.map_append, List.foldl_append, ih]
      simp only [List.map_cons, List.map_nil, List.foldl_cons, List.foldl_nil]
      have hc : (f (n + 1)).isCkptFile = true ∧
          (((n : Int)), some (f n)).1 < (f (n + 1)).nameEpoch := by
        refine ⟨hf (n + 1), ?_⟩
        show ((n : Int)) < (f (n + 1)).nameEpoch
        rw [he (n + 1)]
        omega
      rw [if_pos hc, he (n + 1)]

theorem loadLatestCheckpoint_range (k : Nat) (tsf : Nat → Nat) (mid : List Nat)
    (wv : Nat → List Nat) (hw : validWords (wv k)) :
    loadLatestCheckpoint
      ((List.range (k + 1)).map (fun i => mkCheckpointFile i (tsf i) mid (wv i))) =
      some (k, wv k) := by
  unfold loadLatestCheckpoint
  rw [findLatest_range (fun i => mkCheckpointFile i (tsf i) mid (wv i))
    (fun i => rfl) (fun i => rfl) k]
  simp only []
  show parseCheckpointContent (mkCheckpointFile k (tsf k) mid (wv k)).content = _
  unfold mkCheckpointFile
  rw [parseCheckpointContent_mk]
  rw [bytesToWords_wordsToBytes (wv k) hw]
  rfl

/-! # Training orchestrator
(`src/frontend/workers/fl.worker.ts`: worker globals lines 54-67,
`runTrainingLoop` lines 230-322, `self.onmessage` lines 327-376)

The epoch/batch loops are modelled as fuel-indexed recursion (`rem` counts the
remaining iterations, so `batch = totalBatches - rem` etc.), which is the same
iteration space as the source's `for` loops.  The cooperative stop flag is
linearized by a clock: each read of `shouldStop` advances it, `some n` means a
STOP message lands between the (n-1)-th and n-th reads after the run's reset,
`none` means no STOP arrives during the run.  Once at `some 0` the flag reads
true forever (nothing clears it during a run). -/

structure TrainingConfig where
  epochs : Nat
  modelId : List Nat
deriving DecidableEq

/-- `const totalBatches = 100; // Simulated for now` (line 261). -/
def totalBatches : Nat := 100

/-- One `TRAINING_PROGRESS` payload; the `loss` and `speed` fields are
`Math.random`-driven floats and are not modelled. -/
structure ProgressRec where
  epoch : Nat
  totalEpochs : Nat
  batch : Nat
  totalBatches : Nat
deriving DecidableEq

inductive WErr
  | notInitialized
  | alreadyRunning
  | unknownMessage
deriving DecidableEq

inductive WEvent
  | progress (p : ProgressRec)
  | completeStopped
  | completeDone (weightsDelta : List Nat) (epochs : Nat)
  | initDone (gpu opfs : Bool)
  | statusReport (isTraining hasGpu : Bool)
  | error (e : WErr)
deriving DecidableEq

/-- The worker's module-level mutable state (lines 54-59): `isTraining`,
`shouldStop`, and whether `config` / `gpuDevice` are set. -/
structure WorkerState where
  isTraining : Bool
  shouldStop : Bool
  hasConfig : Bool
  hasGpu : Bool
deriving DecidableEq

/-- Oracles for the random numerics and environment effects: `upd epoch batch`
is the simulated gradient update of one batch (lines 275-277), `w0` the random
fresh initialisation (lines 251-256), `tsOracle` the `Date.now()` at each
epoch's checkpoint save, `saveOk e` whether epoch `e`'s checkpoint write
succeeds (false covers both a missing checkpoint directory and a write error —
`saveCheckpoint` swallows both). -/
structure LoopEnv where
  upd : Nat → Nat → List Nat → List Nat
  w0 : List Nat
  tsOracle : Nat → Nat
  saveOk : Nat → Bool

/-- Advance the stop clock by one flag read. -/
def tick : Option Nat → Option Nat
  | none => none
  | some 0 => some 0
  | some (k + 1) => some k

/-- Inner batch loop (lines 266-298): check the stop flag before each batch,
run the simulated update, post one progress event.  Arguments: remaining
batches, current batch index, stop clock, weights.  Returns final weights,
clock, events. -/
def runBatchesAux (env : LoopEnv) (cfg : TrainingConfig) (epoch : Nat) :
    Nat → Nat → Option Nat → List Nat → List Nat × Option Nat × List WEvent
  | 0, _, t, w => (w, t, [])
  | rem + 1, b, t, w =>
    if t = some 0 then (w, tick t, [])
    else
      let r := runBatchesAux env cfg epoch rem (b + 1) (tick t) (env.upd epoch b w)
      (r.1, r.2.1,
        WEvent.progress ⟨epoch + 1, cfg.epochs, b + 1, totalBatches⟩ :: r.2.2)

/-- Outer epoch loop (lines 263-302): check the stop flag at the top of each
epoch, run the batches, then always call `saveCheckpoint(epoch, weights)` —
also when the inner loop was interrupted by a stop.  Returns final weights,
clock, directory contents, events. -/
def runEpochsAux (env : LoopEnv) (cfg : TrainingConfig) :
    Nat → Nat → Option Nat → List Nat → List DirEntry →
      List Nat × Option Nat × List DirEntry × List WEvent
  | 0, _, t, w, files => (w, t, files, [])
  | rem + 1, e, t, w, files =>
    if t = some 0 then (w, tick t, files, [])
    else
      let rb := runBatchesAux env cfg e totalBatches 0 (tick t) w
      let files2 :=
        if env.saveOk e then
          files ++ [mkCheckpointFile e (env.tsOracle e) cfg.modelId rb.1]
        else files
      let rr := runEpochsAux env cfg rem (e + 1) rb.2.1 rb.1 files2
      (rr.1, rr.2.1, rr.2.2.1, rb.2.2 ++ rr.2.2.2)

/-- `runTrainingLoop` (lines 230-322): reject if config or GPU is missing;
set `isTraining`, reset `shouldStop` (line 237); resume from the latest
checkpoint (epoch + 1, its weights) or fresh-initialize; run the epochs from
there to `config.epochs`; post `TRAINING_COMPLETE` with `status: 'stopped'`
if the flag is set at the end, else `status: 'completed'` whose
`weightsDelta` payload is `Array.from(adapterWeights)` — the raw final
weights (line 310). -/
def runTrainingLoop (env : LoopEnv) (cfg : TrainingConfig) (st : WorkerState)
    (files : List DirEntry) (t : Option Nat) :
    WorkerState × List DirEntry × List WEvent :=
  if st.hasConfig = true ∧ st.hasGpu = true then
    let start : Nat × List Nat :=
      match loadLatestCheckpoint files with
      | some p => (p.1 + 1, p.2)
      | none => (0, env.w0)
    let r := runEpochsAux env cfg (cfg.epochs - start.1) start.1 t start.2 files
    ({ st with isTraining := false, shouldStop := decide (r.2.1 = some 0) },
      r.2.2.1,
      r.2.2.2 ++ [if r.2.1 = some 0 then WEvent.completeStopped
                  else WEvent.completeDone r.1 cfg.epochs])
  else (st, files, [WEvent.error WErr.notInitialized])

inductive WorkerMsg
  | init (gpuOk opfsOk : Bool)
  | startTraining
  | stopTraining
  | getStatus
  | unknown
deriving DecidableEq

/-- `self.onmessage` (lines 327-376): the synchronous part of the handler.
Returns the new worker state, the events posted synchronously, and whether
`runTrainingLoop()` was invoked (fire-and-forget; `START_TRAINING` while
`isTraining` posts an error and returns without queueing anything). -/
def onmessage (st : WorkerState) (msg : WorkerMsg) : WorkerState × List WEvent × Bool :=
  match msg with
  | WorkerMsg.init gpuOk opfsOk =>
      ({ st with hasConfig := true, hasGpu := gpuOk },
        [WEvent.initDone gpuOk opfsOk], false)
  | WorkerMsg.startTraining =>
      if st.isTraining = true then (st, [WEvent.error WErr.alreadyRunning], false)
      else (st, [], true)
  | WorkerMsg.stopTraining => ({ st with shouldStop := true }, [], false)
  | WorkerMsg.getStatus => (st, [WEvent.statusReport st.isTraining st.hasGpu], false)
  | WorkerMsg.unknown => (st, [WEvent.error WErr.unknownMessage], false)

/-! ## Expected runs -/

/-- Weights after running `rem` batches from batch `b` of epoch `epoch`. -/
def batchFoldAux (env : LoopEnv) (epoch : Nat) : Nat → Nat → List Nat → List Nat
  | 0, _, w => w
  | rem + 1, b, w => batchFoldAux env epoch rem (b + 1) (env.upd epoch b w)

/-- Weights after one full epoch. -/
def fullEpochW (env : LoopEnv) (epoch : Nat) (w : List Nat) : List Nat :=
  batchFoldAux env epoch totalBatches 0 w

/-- Weights after `q` full epochs starting at epoch `e`. -/
def epochIterW (env : LoopEnv) : Nat → Nat → List Nat → List Nat
  | _, 0, w => w
  | e, q + 1, w => epochIterW env (e + 1) q (fullEpochW env e w)

/-- Progress events of `cnt` batches starting at batch `b` of epoch `epoch`. -/
def batchEvsAux (cfg : TrainingConfig) (epoch : Nat) : Nat → Nat → List WEvent
  | 0, _ => []
  | cnt + 1, b =>
      WEvent.progress ⟨epoch + 1, cfg.epochs, b + 1, totalBatches⟩ ::
        batchEvsAux cfg epoch cnt (b + 1)

/-- Events of `q` full epochs from epoch `e`. -/
def epochEvsAux (cfg : TrainingConfig) : Nat → Nat → List WEvent
  | 0, _ => []
  | q + 1, e => batchEvsAux cfg e totalBatches 0 ++ epochEvsAux cfg q (e + 1)

/-- Checkpoint files appended by `q` full epochs from epoch `e` starting at
weights `w` (an epoch whose save fails appends nothing). -/
def ckptFilesAux (env : LoopEnv) (cfg : TrainingConfig) :
    Nat → Nat → List Nat → List DirEntry
  | 0, _, _ => []
  | q + 1, e, w =>
      (if env.saveOk e then
        [mkCheckpointFile e (env.tsOracle e) cfg.modelId (fullEpochW env e w)]
      else []) ++ ckptFilesAux env cfg q (e + 1) (fullEpochW env e w)

/-- Weights at the moment a stop is honoured: `q` full epochs from `e`, then
`b` batches of epoch `e + q`. -/
def stopWeights (env : LoopEnv) (e q b : Nat) (w : List Nat) : List Nat :=
  batchFoldAux env (e + q) b 0 (epochIterW env e q w)

/-- Checkpoint files of a stopped run (all saves succeeding): one file per
full epoch, plus a file for the interrupted epoch holding its partial
weights. -/
def stopFilesAux (env : LoopEnv) (cfg : TrainingConfig) :
    Nat → Nat → Nat → List Nat → List DirEntry
  | 0, e, b, w =>
      [mkCheckpointFile e (env.tsOracle e) cfg.modelId (batchFoldAux env e b 0 w)]
  | q + 1, e, b, w =>
      mkCheckpointFile e (env.tsOracle e) cfg.modelId (fullEpochW env e w) ::
        stopFilesAux env cfg q (e + 1) b (fullEpochW env e w)

/-- Events of a stopped run: full epochs, then `b` batches of the last one. -/
def stopEvsAux (cfg : TrainingConfig) : Nat → Nat → Nat → List WEvent
  | 0, e, b => batchEvsAux cfg e b 0
  | q + 1, e, b => batchEvsAux cfg e totalBatches 0 ++ stopEvsAux cfg q (e + 1) b

/-! ## Loop lemmas -/

theorem runBatchesAux_none (env : LoopEnv) (cfg : TrainingConfig) (epoch : Nat) :
    ∀ rem b w, runBatchesAux env cfg epoch rem b none w =
      (batchFoldAux env epoch rem b w, none, batchEvsAux cfg epoch rem b) := by
  intro rem
  induction rem with
  | zero => intro b w; rfl
  | succ n ih =>
      intro b w
      simp only [runBatchesAux, batchFoldAux, batchEvsAux, tick, ih]
      simp

theorem runEpochsAux_none (env : LoopEnv) (cfg : TrainingConfig) :
    ∀ rem e w files, runEpochsAux env cfg rem e none w files =
      (epochIterW env e rem w, none, files ++ ckptFilesAux env cfg rem e w,
        epochEvsAux cfg rem e) := by
  intro rem
  induction rem with
  | zero => intro e w files; simp [runEpochsAux, epochIterW, ckptFilesAux, epochEvsAux]
  | succ n ih =>
      intro e w files
      simp only [runEpochsAux, tick, runBatchesAux_none, ih, epochIterW, ckptFilesAux,
        epochEvsAux, fullEpochW]
      by_cases hs : env.saveOk e = true
      · simp [hs, List.append_assoc]
      · simp [hs]

theorem runBatchesAux_stop_big (env : LoopEnv) (cfg : TrainingConfig) (epoch : Nat) :
    ∀ rem b w n, rem ≤ n →
      runBatchesAux env cfg epoch rem b (some n) w =
        (batchFoldAux env epoch rem b w, some (n - rem), batchEvsAux cfg epoch rem b) := by
  intro rem
  induction rem with
  | zero => intro b w n h; rfl
  | succ k ih =>
      intro b w n h
      obtain ⟨m, rfl⟩ : ∃ m, n = m + 1 := ⟨n - 1, by omega⟩
      have hne : ¬ (some (m + 1) = some 0) := by simp
      simp only [runBatchesAux, hne, if_false, tick, batchFoldAux, batchEvsAux]
      rw [ih (b + 1) (env.upd epoch b w) m (by omega)]
      simp only [Nat.succ_sub_succ]

theorem runBatchesAux_stop_small (env : LoopEnv) (cfg : TrainingConfig) (epoch : Nat) :
    ∀ n rem b w, n < rem →
      runBatchesAux env cfg epoch rem b (some n) w =
        (batchFoldAux env epoch n b w, some 0, batchEvsAux cfg epoch n b) := by
  intro n
  induction n with
  | zero =>
      intro rem b w h
      obtain ⟨k, rfl⟩ : ∃ k, rem = k + 1 := ⟨rem - 1, by omega⟩
      simp [runBatchesAux, tick, batchFoldAux, batchEvsAux]
  | succ m ih =>
      intro rem b w h
      obtain ⟨k, rfl⟩ : ∃ k, rem = k + 1 := ⟨rem - 1, by omega⟩
      have hne : ¬ (some (m + 1) = some 0) := by simp
      simp only [runBatchesAux, hne, if_false, tick, batchFoldAux, batchEvsAux]
      rw [ih k (b + 1) (env.upd epoch b w) (by omega)]

theorem runEpochsAux_already_stopped (env : LoopEnv) (cfg : TrainingConfig) :
    ∀ rem e w files, runEpochsAux env cfg rem e (some 0) w files =
      (w, some 0, files, []) := by
  intro rem
  cases rem with
  | zero => intro e w files; rfl
  | succ k => intro e w files; simp [runEpochsAux, tick]

theorem runEpochsAux_stop (env : LoopEnv) (cfg : TrainingConfig)
    (hs : ∀ i, env.saveOk i = true) :
    ∀ q rem e w files b, q < rem → b < totalBatches →
      runEpochsAux env cfg rem e (some (q * (totalBatches + 1) + 1 + b)) w files =
        (stopWeights env e q b w, some 0, files ++ stopFilesAux env cfg q e b w,
          stopEvsAux cfg q e b) := by
  intro q
  induction q with
  | zero =>
      intro rem e w files b hq hb
      obtain ⟨k, rfl⟩ : ∃ k, rem = k + 1 := ⟨rem - 1, by omega⟩
      have hne : ¬ (some (0 * (totalBatches + 1) + 1 + b) = some 0) := by simp
      simp only [runEpochsAux, hne, if_false]
      have ht : tick (some (0 * (totalBatches + 1) + 1 + b)) = some b := by
        rw [show 0 * (totalBatches + 1) + 1 + b = b + 1 by omega]
        rfl
      rw [ht, runBatchesAux_stop_small env cfg e b totalBatches 0 w hb]
      simp only [hs e, if_true, runEpochsAux_already_stopped]
      simp [stopWeights, stopFilesAux, stopEvsAux, epochIterW]
  | succ p ih =>
      intro rem e w files b hq hb
      obtain ⟨k, rfl⟩ : ∃ k, rem = k + 1 := ⟨rem - 1, by omega⟩
      have hne : ¬ (some ((p + 1) * (totalBatches + 1) + 1 + b) = some 0) := by
        simp
      simp only [runEpochsAux, hne, if_false]
      have ht : tick (some ((p + 1) * (totalBatches + 1) + 1 + b)) =
          some ((p + 1) * (totalBatches + 1) + b) := by
        rw [show (p + 1) * (totalBatches + 1) + 1 + b =
          ((p + 1) * (totalBatches + 1) + b) + 1 by omega]
        rfl
      rw [ht, runBatchesAux_stop_big env cfg e totalBatches 0 w
        ((p + 1) * (totalBatches + 1) + b) (by nlinarith)]
      have harith : (p + 1) * (totalBatches + 1) + b - totalBatches =
          p * (totalBatches + 1) + 1 + b := by ring_nf; omega
      simp only [harith, hs e, if_true]
      rw [ih k (e + 1) (batchFoldAux env e totalBatches 0 w)
        (files ++ [mkCheckpointFile e (env.tsOracle e) cfg.modelId
          (batchFoldAux env e totalBatches 0 w)]) b (by omega) hb]
      simp only [stopWeights, stopFilesAux, stopEvsAux, epochIterW, fullEpochW]
      rw [show e + (p + 1) = e + 1 + p by omega]
      simp [List.append_assoc]

/-! ## Claim-level theorems for the orchestrator -/

theorem loadLatest_nil : loadLatestCheckpoint [] = none := rfl

theorem batchEvsAux_progress (cfg : TrainingConfig) (epoch : Nat) :
    ∀ cnt b ev, ev ∈ batchEvsAux cfg epoch cnt b → ∃ p, ev = WEvent.progress p := by
  intro cnt
  induction cnt with
  | zero => intro b ev hev; simp [batchEvsAux] at hev
  | succ n ih =>
      intro b ev hev
      simp only [batchEvsAux, List.mem_cons] at hev
      rcases hev with h | h
      · exact ⟨_, h⟩
      · exact ih (b + 1) ev h

theorem epochEvsAux_progress (cfg : TrainingConfig) :
    ∀ q e ev, ev ∈ epochEvsAux cfg q e → ∃ p, ev = WEvent.progress p := by
  intro q
  induction q with
  | zero => intro e ev hev; simp [epochEvsAux] at hev
  | succ n ih =>
      intro e ev hev
      simp only [epochEvsAux, List.mem_append] at hev
      rcases hev with h | h
      · exact batchEvsAux_progress cfg e totalBatches 0 ev h
      · exact ih (e + 1) ev h

theorem stopFilesAux_epochs (env : LoopEnv) (cfg : TrainingConfig) :
    ∀ q e b w, (stopFilesAux env cfg q e b w).map DirEntry.nameEpoch =
      (List.range' e (q + 1)).map (fun i => (i : Int)) := by
  intro q
  induction q with
  | zero => intro e b w; simp [stopFilesAux, List.range', mkCheckpointFile]
  | succ p ih =>
      intro e b w
      rw [List.range'_succ]
      simp only [stopFilesAux, List.map_cons, ih (e + 1) b (fullEpochW env e w)]
      rfl

/-- A completed run from an empty checkpoint directory: fresh-initialize,
train every epoch from 0, attempt one save per epoch, finish with the
completed event. -/
theorem runTrainingLoop_none_empty (env : LoopEnv) (cfg : TrainingConfig)
    (st : WorkerState) (hcfg : st.hasConfig = true) (hgpu : st.hasGpu = true) :
    runTrainingLoop env cfg st [] none =
      ({ st with isTraining := false, shouldStop := false },
        ckptFilesAux env cfg cfg.epochs 0 env.w0,
        epochEvsAux cfg cfg.epochs 0 ++
          [WEvent.completeDone (epochIterW env 0 cfg.epochs env.w0) cfg.epochs]) := by
  unfold runTrainingLoop
  rw [if_pos ⟨hcfg, hgpu⟩]
  simp only [loadLatest_nil, Nat.sub_zero, runEpochsAux_none]
  simp

/-- C9: checkpoint save failures (missing directory or write error) are
swallowed by `saveCheckpoint`: for every save-success pattern the run still
trains every epoch, ends with the completed event, and no Error event is
posted; a failed save merely leaves that epoch's file out of the directory. -/
theorem saveCheckpoint_failures_not_propagated (env : LoopEnv) (cfg : TrainingConfig)
    (st : WorkerState) (hcfg : st.hasConfig = true) (hgpu : st.hasGpu = true) :
    runTrainingLoop env cfg st [] none =
      ({ st with isTraining := false, shouldStop := false },
        ckptFilesAux env cfg cfg.epochs 0 env.w0,
        epochEvsAux cfg cfg.epochs 0 ++
          [WEvent.completeDone (epochIterW env 0 cfg.epochs env.w0) cfg.epochs]) ∧
    (∀ ev ∈ epochEvsAux cfg cfg.epochs 0, ∀ er, ev ≠ WEvent.error er) := by
  refine ⟨runTrainingLoop_none_empty env cfg st hcfg hgpu, ?_⟩
  intro ev hev er
  obtain ⟨p, rfl⟩ := epochEvsAux_progress cfg cfg.epochs 0 ev hev
  simp

/-- Shared concrete instances for the orchestrator witnesses. -/
def cfg1 : TrainingConfig := ⟨1, [109]⟩

def cfg2 : TrainingConfig := ⟨2, [109]⟩

/-- Identity updates, one-word random init (the float32 pattern of 2.0),
saves failing (checkpoint directory absent). -/
def envId : LoopEnv := ⟨fun _ _ w => w, [1073741824], fun _ => 0, fun _ => false⟩

/-- Identity updates, one-word init, all saves succeeding. -/
def envSave : LoopEnv := ⟨fun _ _ w => w, [3], fun _ => 5, fun _ => true⟩

/-- Idle, initialized worker state. -/
def st0 : WorkerState := ⟨false, false, true, true⟩

/-- C1: at the failing input (initial adapter `[2.0f]`, simulated updates that
leave the weights unchanged, one epoch, no checkpoint, no stop) the terminal
Completed event's `weightsDelta` is the raw final weights — the bit pattern of
2.0 — although the delta of final minus initial is the zero vector for any
subtraction with `x - x = 0`: line 310 of `fl.worker.ts` sends
`adapterWeights` itself and its own comment concedes the subtraction is
missing (`// In production: newWeights - initialWeights`); `initialLoraA` /
`initialLoraB` (lines 61-63) are never assigned. -/
theorem trainingComplete_payload_is_raw_weights :
    (runTrainingLoop envId cfg1 st0 [] none).2.2.getLast? =
      some (WEvent.completeDone envId.w0 1) ∧
    envId.w0 = [1073741824] ∧
    (∀ sub : Nat → Nat → Nat, sub 1073741824 1073741824 = 0 →
      List.zipWith sub envId.w0 envId.w0 ≠ envId.w0) := by
  refine ⟨by decide, rfl, ?_⟩
  intro sub hsub
  show List.zipWith sub [1073741824] [1073741824] ≠ [1073741824]
  simp [hsub]

/-- C2 counterexample: train one epoch, request stop while batch 0 of epoch 0
runs (the flag is read true at the check before batch 1).  The terminal event
is Stopped, but a checkpoint for epoch 0 — the interrupted epoch — IS saved:
the claim's `only fully completed epochs strictly before e have checkpoints`
fails, since the save call sits after the inner loop and runs regardless of
the break. -/
theorem stop_midepoch_checkpoints_partial_epoch_cex :
    (runTrainingLoop envSave cfg1 st0 [] (some 2)).2.2.getLast? =
      some WEvent.completeStopped ∧
    ((runTrainingLoop envSave cfg1 st0 [] (some 2)).2.1.map DirEntry.nameEpoch =
      [(0 : Int)]) := by decide

/-- C2 (amended): a stop observed at the check before batch `b` of epoch `e`
(all earlier checks reading false) yields a terminal Stopped event, and
checkpoints exist for every epoch up to AND INCLUDING `e` — epoch `e`'s file
holds the partial progress of its first `b` batches (saves assumed to
succeed).  At most the in-flight batch completes after the stop is observed. -/
theorem stop_midepoch_saves_current_epoch (env : LoopEnv) (cfg : TrainingConfig)
    (st : WorkerState) (e b : Nat)
    (hcfg : st.hasConfig = true) (hgpu : st.hasGpu = true)
    (hs : ∀ i, env.saveOk i = true) (he : e < cfg.epochs) (hb : b < totalBatches) :
    runTrainingLoop env cfg st [] (some (e * (totalBatches + 1) + 1 + b)) =
      ({ st with isTraining := false, shouldStop := true },
        stopFilesAux env cfg e 0 b env.w0,
        stopEvsAux cfg e 0 b ++ [WEvent.completeStopped]) ∧
    (stopFilesAux env cfg e 0 b env.w0).map DirEntry.nameEpoch =
      (List.range' 0 (e + 1)).map (fun i => (i : Int)) := by
  refine ⟨?_, stopFilesAux_epochs env cfg e 0 b env.w0⟩
  unfold runTrainingLoop
  rw [if_pos ⟨hcfg, hgpu⟩]
  simp only [loadLatest_nil, Nat.sub_zero]
  simp only [runEpochsAux_stop env cfg hs e cfg.epochs 0 env.w0 [] b he hb]
  simp

/-- C2 witness: one epoch, stop at the check before batch 1 of epoch 0. -/
theorem stop_midepoch_saves_current_epoch_witness :
    runTrainingLoop envSave cfg1 st0 [] (some (0 * (totalBatches + 1) + 1 + 1)) =
      ({ st0 with isTraining := false, shouldStop := true },
        stopFilesAux envSave cfg1 0 0 1 envSave.w0,
        stopEvsAux cfg1 0 0 1 ++ [WEvent.completeStopped]) :=
  (stop_midepoch_saves_current_epoch envSave cfg1 st0 0 1 rfl rfl (fun _ => rfl)
    (by decide) (by decide)).1

/-- C1 witness: with the identity-update oracle the delta of final minus
initial is the zero vector, not the emitted raw weights. -/
theorem trainingComplete_payload_is_raw_weights_witness :
    List.zipWith (fun a b => a - b) envId.w0 envId.w0 ≠ envId.w0 :=
  trainingComplete_payload_is_raw_weights.2.2 (fun a b => a - b) (by decide)

/-- C9 witness: every save fails (`envId.saveOk` is constantly false), yet the
run completes all epochs with no Error event. -/
theorem saveCheckpoint_failures_not_propagated_witness :
    runTrainingLoop envId cfg1 st0 [] none =
      ({ st0 with isTraining := false, shouldStop := false },
        ckptFilesAux envId cfg1 cfg1.epochs 0 envId.w0,
        epochEvsAux cfg1 cfg1.epochs 0 ++
          [WEvent.completeDone (epochIterW envId 0 cfg1.epochs envId.w0) cfg1.epochs]) :=
  (saveCheckpoint_failures_not_propagated envId cfg1 st0 rfl rfl).1

/-- C4: with checkpoint files for epochs `0..k` in the directory,
`loadLatestCheckpoint` returns epoch `k` with its stored weights; the run then
resumes at epoch `k + 1` reusing those weights (the fresh initialisation
`env.w0` appears nowhere in the result), trains epochs `k + 1` to
`config.epochs - 1`, and — saves succeeding — its first new checkpoint file is
for epoch `k + 1`. -/
theorem resume_after_latest_checkpoint (env : LoopEnv) (cfg : TrainingConfig)
    (st : WorkerState) (k : Nat) (tsf : Nat → Nat) (wv : Nat → List Nat)
    (hcfg : st.hasConfig = true) (hgpu : st.hasGpu = true)
    (hw : validWords (wv k)) (hk : k + 1 < cfg.epochs) :
    loadLatestCheckpoint
        ((List.range (k + 1)).map (fun i => mkCheckpointFile i (tsf i) cfg.modelId (wv i))) =
      some (k, wv k) ∧
    runTrainingLoop env cfg st
        ((List.range (k + 1)).map (fun i => mkCheckpointFile i (tsf i) cfg.modelId (wv i)))
        none =
      ({ st with isTraining := false, shouldStop := false },
        (List.range (k + 1)).map (fun i => mkCheckpointFile i (tsf i) cfg.modelId (wv i)) ++
          ckptFilesAux env cfg (cfg.epochs - (k + 1)) (k + 1) (wv k),
        epochEvsAux cfg (cfg.epochs - (k + 1)) (k + 1) ++
          [WEvent.completeDone (epochIterW env (k + 1) (cfg.epochs - (k + 1)) (wv k))
            cfg.epochs]) ∧
    (env.saveOk (k + 1) = true →
      (ckptFilesAux env cfg (cfg.epochs - (k + 1)) (k + 1) (wv k)).head? =
        some (mkCheckpointFile (k + 1) (env.tsOracle (k + 1)) cfg.modelId
          (fullEpochW env (k + 1) (wv k)))) := by
  refine ⟨loadLatestCheckpoint_range k tsf cfg.modelId wv hw, ?_, ?_⟩
  · unfold runTrainingLoop
    rw [if_pos ⟨hcfg, hgpu⟩]
    simp only [loadLatestCheckpoint_range k tsf cfg.modelId wv hw, runEpochsAux_none]
    simp
  · intro hsave
    obtain ⟨r, hr⟩ : ∃ r, cfg.epochs - (k + 1) = r + 1 :=
      ⟨cfg.epochs - (k + 1) - 1, by omega⟩
    rw [hr]
    simp [ckptFilesAux, hsave]

/-- C4 witness: one checkpoint for epoch 0, two configured epochs — the run
resumes at epoch 1 with the stored weights `[5]`. -/
theorem resume_after_latest_checkpoint_witness :
    runTrainingLoop envSave cfg2 st0
        ((List.range (0 + 1)).map
          (fun i => mkCheckpointFile i ((fun _ => 0) i) cfg2.modelId ((fun _ => [5]) i)))
        none =
      ({ st0 with isTraining := false, shouldStop := false },
        (List.range (0 + 1)).map
          (fun i => mkCheckpointFile i ((fun _ => 0) i) cfg2.modelId ((fun _ => [5]) i)) ++
          ckptFilesAux envSave cfg2 (cfg2.epochs - (0 + 1)) (0 + 1) [5],
        epochEvsAux cfg2 (cfg2.epochs - (0 + 1)) (0 + 1) ++
          [WEvent.completeDone (epochIterW envSave (0 + 1) (cfg2.epochs - (0 + 1)) [5])
            cfg2.epochs]) :=
  (resume_after_latest_checkpoint envSave cfg2 st0 0 (fun _ => 0) (fun _ => [5])
    rfl rfl (by decide) (by decide)).2.1

/-- C8: a `START_TRAINING` message while `isTraining` is true posts exactly one
`AlreadyRunning` error, leaves the worker state unchanged, and does not invoke
(or queue) another training loop — the in-progress session is unaffected. -/
theorem second_start_rejected (st : WorkerState) (h : st.isTraining = true) :
    onmessage st WorkerMsg.startTraining =
      (st, [WEvent.error WErr.alreadyRunning], false) := by
  simp [onmessage, h]

/-- C8 witness: a training worker state. -/
theorem second_start_rejected_witness :
    onmessage ⟨true, false, true, true⟩ WorkerMsg.startTraining =
      (⟨true, false, true, true⟩, [WEvent.error WErr.alreadyRunning], false) :=
  second_start_rejected ⟨true, false, true, true⟩ rfl

/-- C10: a `STOP_TRAINING` received while idle sets `shouldStop`, but
`runTrainingLoop` resets the flag at entry (line 237), so a subsequently
started session trains all its epochs and ends with the completed event —
unless a new stop arrives after it starts. -/
theorem stale_stop_cleared_on_start (env : LoopEnv) (cfg : TrainingConfig)
    (st : WorkerState) (hcfg : st.hasConfig = true) (hgpu : st.hasGpu = true)
    (hidle : st.isTraining = false) :
    (onmessage st WorkerMsg.stopTraining).1 = { st with shouldStop := true } ∧
    onmessage { st with shouldStop := true } WorkerMsg.startTraining =
      ({ st with shouldStop := true }, [], true) ∧
    runTrainingLoop env cfg { st with shouldStop := true } [] none =
      ({ st with isTraining := false, shouldStop := false },
        ckptFilesAux env cfg cfg.epochs 0 env.w0,
        epochEvsAux cfg cfg.epochs 0 ++
          [WEvent.completeDone (epochIterW env 0 cfg.epochs env.w0) cfg.epochs]) := by
  refine ⟨rfl, by simp [onmessage, hidle], ?_⟩
  exact runTrainingLoop_none_empty env cfg { st with shouldStop := true } hcfg hgpu

/-- C10 witness: stale stop flag set, then a full one-epoch run completes. -/
theorem stale_stop_cleared_on_start_witness :
    runTrainingLoop envSave cfg1 { st0 with shouldStop := true } [] none =
      ({ st0 with isTraining := false, shouldStop := false },
        ckptFilesAux envSave cfg1 cfg1.epochs 0 envSave.w0,
        epochEvsAux cfg1 cfg1.epochs 0 ++
          [WEvent.completeDone (epochIterW envSave 0 cfg1.epochs envSave.w0) cfg1.epochs]) :=
  (stale_stop_cleared_on_start envSave cfg1 st0 rfl rfl rfl).2.2
